import Mathlib

/-!
Verification development for the citation-localization engine of the
`find_reuse` repository.  The Python source is embedded shallowly: text is
`List Char` (one entry per Unicode code point, matching Python string
indexing), and the regular expressions used by the source are transcribed
into an explicit AST (`Re`) executed by a backtracking matcher (`Re.mrun`)
with Python `re` semantics (leftmost match, greedy quantifiers,
left-preferring alternation, non-overlapping `finditer` scanning).
Character classes such as `\d`, `\s`, `\w` are modelled over the ASCII
range, which covers every text the source's patterns are aimed at.
-/

/-- Python `\d` (modelled over ASCII). -/
def isDigitCh (c : Char) : Bool := c.isDigit

/-- Python `\s`: the ASCII whitespace characters of `str.isspace`. -/
def isSpaceCh (c : Char) : Bool :=
  c = ' ' || c = '\t' || c = '\n' || c = '\x0d' || c = '\x0b' || c = '\x0c'

/-- Python `[a-zA-Z]`. -/
def isAlphaCh (c : Char) : Bool := c.isAlpha && c.toNat < 128

/-- Python `\w` as used by `\b` word boundaries (modelled over ASCII). -/
def isWordCh (c : Char) : Bool := isAlphaCh c || c.isDigit || c = '_'

/-- Case-insensitive character equality, as produced by `re.IGNORECASE`. -/
def ciEq (a b : Char) : Bool := a.toLower = b.toLower

/-- Regular-expression AST covering the constructs used by the source. -/
inductive Re where
  | eps : Re
  | cls : (Char → Bool) → Re
  | cat : Re → Re → Re
  | alt : Re → Re → Re
  | star : Re → Re
  | rep : Nat → Option Nat → Re → Re
  | opt : Re → Re
  | grp : Nat → Re → Re
  | lookA : Re → Re
  | nlookA : Re → Re
  | lookB : (Char → Bool) → Re
  | bos : Re
  | eos : Re
  | dollar : Re
  | wordB : Re

/-- Literal (case-sensitive) character. -/
def Re.ch (c : Char) : Re := Re.cls (fun x => x = c)

/-- Literal (case-insensitive) character, for patterns run with `re.IGNORECASE`. -/
def Re.chCI (c : Char) : Re := Re.cls (fun x => ciEq x c)

/-- Sequence a list of `Re`s. -/
def Re.seq : List Re → Re
  | [] => Re.eps
  | [r] => r
  | r :: rs => Re.cat r (Re.seq rs)

/-- Case-sensitive literal string. -/
def Re.lit (s : String) : Re := Re.seq (s.data.map Re.ch)

/-- Case-insensitive literal string. -/
def Re.litCI (s : String) : Re := Re.seq (s.data.map Re.chCI)

/-- Alternation over a list (left preference, as in Python `a|b|c`). -/
def Re.alts : List Re → Re
  | [] => Re.cls (fun _ => false)
  | [r] => r
  | r :: rs => Re.alt r (Re.alts rs)

/-- Capture groups recorded during a match: `(group index, start, end)`. -/
abbrev Caps := List (Nat × Nat × Nat)

/-- Backtracking matcher in continuation-passing style, mirroring Python
`re` semantics: alternation prefers its left branch, `star`/`rep`/`opt` are
greedy, lookarounds are zero-width, and an iteration of a quantifier that
consumes nothing ends the loop.  `fuel` bounds recursion depth; every
caller below supplies fuel that is far larger than any reachable depth.
The matcher works on a zipper: `left` is the reversed consumed prefix
(used by lookbehind, `^` and `\b`) and `right` the remaining input. -/
def Re.mrun : Nat → Re → Nat → List Char → List Char → Caps →
    (Nat → List Char → List Char → Caps → Option (Nat × Caps)) → Option (Nat × Caps)
  | 0, _, _, _, _, _, _ => none
  | Nat.succ fuel, r, pos, left, right, caps, k =>
    match r with
    | .eps => k pos left right caps
    | .cls p =>
      match right with
      | [] => none
      | c :: rest => if p c then k (pos + 1) (c :: left) rest caps else none
    | .cat a b =>
      Re.mrun fuel a pos left right caps
        (fun pos2 l2 r2 c2 => Re.mrun fuel b pos2 l2 r2 c2 k)
    | .alt a b =>
      match Re.mrun fuel a pos left right caps k with
      | some res => some res
      | none => Re.mrun fuel b pos left right caps k
    | .star r1 =>
      match Re.mrun fuel r1 pos left right caps
          (fun pos2 l2 r2 c2 =>
            if pos2 = pos then none
            else Re.mrun fuel (.star r1) pos2 l2 r2 c2 k) with
      | some res => some res
      | none => k pos left right caps
    | .rep lo hi r1 =>
      match lo with
      | Nat.succ lo1 =>
        Re.mrun fuel r1 pos left right caps
          (fun pos2 l2 r2 c2 =>
            Re.mrun fuel (.rep lo1 (hi.map (· - 1)) r1) pos2 l2 r2 c2 k)
      | 0 =>
        match hi with
        | none => Re.mrun fuel (.star r1) pos left right caps k
        | some 0 => k pos left right caps
        | some (Nat.succ h) =>
          match Re.mrun fuel r1 pos left right caps
              (fun pos2 l2 r2 c2 =>
                if pos2 = pos then none
                else Re.mrun fuel (.rep 0 (some h) r1) pos2 l2 r2 c2 k) with
          | some res => some res
          | none => k pos left right caps
    | .opt r1 =>
      match Re.mrun fuel r1 pos left right caps k with
      | some res => some res
      | none => k pos left right caps
    | .grp n r1 =>
      Re.mrun fuel r1 pos left right caps
        (fun pos2 l2 r2 c2 => k pos2 l2 r2 ((n, pos, pos2) :: c2))
    | .lookA r1 =>
      match Re.mrun fuel r1 pos left right caps (fun p2 _ _ c2 => some (p2, c2)) with
      | some (_, c2) => k pos left right c2
      | none => none
    | .nlookA r1 =>
      match Re.mrun fuel r1 pos left right caps (fun p2 _ _ c2 => some (p2, c2)) with
      | some _ => none
      | none => k pos left right caps
    | .lookB p =>
      match left with
      | c :: _ => if p c then k pos left right caps else none
      | [] => none
    | .bos => if left.isEmpty then k pos left right caps else none
    | .eos => if right.isEmpty then k pos left right caps else none
    | .dollar =>
      match right with
      | [] => k pos left right caps
      | ['\n'] => k pos left right caps
      | _ => none
    | .wordB =>
      let wl := match left with | c :: _ => isWordCh c | [] => false
      let wr := match right with | c :: _ => isWordCh c | [] => false
      if wl ≠ wr then k pos left right caps else none

/-- One complete match of `r` in `text`: `(start, end, captures)`. -/
structure MatchRes where
  mstart : Nat
  mend : Nat
  caps : Caps
deriving DecidableEq, Repr

/-- Fuel that over-approximates every recursion depth reachable on `right`
for the patterns of this file. -/
def Re.fuelFor (right : List Char) : Nat := 8 * right.length + 500

/-- Attempt a match of `r` at the current zipper position (Python
`re.compile(r).match` anchored at `pos`). -/
def Re.matchHere (r : Re) (pos : Nat) (left right : List Char) : Option (Nat × Caps) :=
  Re.mrun (Re.fuelFor right) r pos left right [] (fun p _ _ c => some (p, c))

/-- Scan for all non-overlapping matches from the current zipper, as
`re.finditer` does: leftmost match first, resuming at each match's end
(advancing one character past a zero-width match). -/
def Re.scan : Nat → Re → Nat → List Char → List Char → List MatchRes
  | 0, _, _, _, _ => []
  | Nat.succ fuel, r, pos, left, right =>
    match Re.matchHere r pos left right with
    | some (e, caps) =>
      if e > pos then
        { mstart := pos, mend := e, caps := caps } ::
          Re.scan fuel r e (((right.take (e - pos)).reverse) ++ left) (right.drop (e - pos))
      else
        { mstart := pos, mend := e, caps := caps } ::
          (match right with
           | [] => []
           | c :: rest => Re.scan fuel r (pos + 1) (c :: left) rest)
    | none =>
      match right with
      | [] => []
      | c :: rest => Re.scan fuel r (pos + 1) (c :: left) rest

/-- `re.finditer(r, text)`. -/
def Re.finditer (r : Re) (text : List Char) : List MatchRes :=
  Re.scan (text.length + 1) r 0 [] text

/-- `re.search(r, text)`: the first match, if any. -/
def Re.rsearch (r : Re) (text : List Char) : Option MatchRes :=
  (Re.finditer r text).head?

/-- `re.match(r, text)`: a match anchored at position 0. -/
def Re.rmatch (r : Re) (text : List Char) : Option (Nat × Caps) :=
  Re.matchHere r 0 [] text

/-- Span of capture group `n` of a match (the most recent capture wins,
as in Python). -/
def MatchRes.group? (m : MatchRes) (n : Nat) : Option (Nat × Nat) :=
  (m.caps.find? (fun t => t.1 = n)).map (fun t => t.2)

/-- Python slice `text[a:b]` (with clamping semantics for `b > len`). -/
def pySlice (text : List Char) (a b : Nat) : List Char :=
  (text.drop a).take (b - a)

/-- The text of capture group `n` of a match, `""` when absent. -/
def MatchRes.groupTxt (m : MatchRes) (text : List Char) (n : Nat) : List Char :=
  match m.group? n with
  | some (a, b) => pySlice text a b
  | none => []

/-- The full matched text, `m.group(0)`. -/
def MatchRes.matchedTxt (m : MatchRes) (text : List Char) : List Char :=
  pySlice text m.mstart m.mend

/-- Numeric value of a digit string, Python `int` on a `\d+` capture. -/
def natOfDigits (l : List Char) : Nat :=
  l.foldl (fun acc c => 10 * acc + (c.toNat - 48)) 0

/-! ## Generic Python-style helpers -/

/-- First-occurrence deduplication; models Python `list(set(xs))`, whose
iteration order is modelled here as first-occurrence order (every claim
below depends only on membership, never on the set's iteration order). -/
def pydedupGo [DecidableEq α] : List α → List α → List α
  | [], _ => []
  | x :: xs, seen => if seen.contains x then pydedupGo xs seen else x :: pydedupGo xs (x :: seen)

/-- Python `list(set(xs))` under the first-occurrence order model. -/
def pydedup [DecidableEq α] (l : List α) : List α := pydedupGo l []

/-- Insert `x` after every element `y` with `le y x`; the building block of
the stable sort below. -/
def pyInsert (le : α → α → Bool) : List α → α → List α
  | [], x => [x]
  | y :: ys, x => if le y x then y :: pyInsert le ys x else x :: y :: ys

/-- Stable sort by a boolean `≤` test, modelling Python `sorted`/`list.sort`
(equal keys keep their original relative order). -/
def pysortBy (le : α → α → Bool) (l : List α) : List α := l.foldl (pyInsert le) []

/-- Python string `<` (lexicographic by code point). -/
def strLt : List Char → List Char → Bool
  | [], [] => false
  | [], _ :: _ => true
  | _ :: _, [] => false
  | a :: as, b :: bs => if a = b then strLt as bs else decide (a < b)

/-- Python `str.lower` over a character list (ASCII model). -/
def lowerL (l : List Char) : List Char := l.map Char.toLower

/-- Python `str.strip()` (whitespace from both ends). -/
def pyStrip (l : List Char) : List Char :=
  ((l.dropWhile isSpaceCh).reverse.dropWhile isSpaceCh).reverse

/-- Python `str.split()` with no separator: whitespace-delimited words,
empties removed. -/
def pySplitGo : List Char → List Char → List (List Char)
  | [], cur => if cur.isEmpty then [] else [cur.reverse]
  | c :: rest, cur =>
    if isSpaceCh c then
      if cur.isEmpty then pySplitGo rest [] else cur.reverse :: pySplitGo rest []
    else pySplitGo rest (c :: cur)

/-- Python `str.split()`. -/
def pySplitWs (l : List Char) : List (List Char) := pySplitGo l []

/-- Python `str.split(',')` (which keeps empty pieces). -/
def pySplitComma : List Char → List (List Char)
  | [] => [[]]
  | c :: rest =>
    if c = ',' then [] :: pySplitComma rest
    else match pySplitComma rest with
      | [] => [[c]]
      | w :: ws => (c :: w) :: ws

/-- Does `text` start with `pat`, comparing case-insensitively? -/
def startsWithCI : List Char → List Char → Bool
  | _, [] => true
  | [], _ :: _ => false
  | t :: ts, p :: ps => ciEq t p && startsWithCI ts ps

/-- Scanner behind `searchCI`. -/
def searchCIGo (pat : List Char) : List Char → Nat → Option Nat
  | [], i => if startsWithCI [] pat then some i else none
  | t :: ts, i => if startsWithCI (t :: ts) pat then some i else searchCIGo pat ts (i + 1)

/-- Python `re.search(re.escape(pat), text, re.IGNORECASE)`: offset of the
first case-insensitive occurrence of the literal `pat`. -/
def searchCI (text pat : List Char) : Option Nat := searchCIGo pat text 0

/-- Python `pat.lower() in hay.lower()`. -/
def containsCISub (hay pat : List Char) : Bool := (searchCI hay pat).isSome

/-- Specification-level statement that `pat` occurs case-insensitively in
`text` (used as the hypothesis of claim C8). -/
def containsCI (text pat : List Char) : Bool :=
  (List.range (text.length + 1)).any (fun p => startsWithCI (text.drop p) pat)

/-- Does `text` start with `pat` (case-sensitive)? -/
def startsWithL : List Char → List Char → Bool
  | _, [] => true
  | [], _ :: _ => false
  | t :: ts, p :: ps => t = p && startsWithL ts ps

/-- Scanner behind `searchSub`. -/
def searchSubGo (pat : List Char) : List Char → Nat → Option Nat
  | [], i => if startsWithL [] pat then some i else none
  | t :: ts, i => if startsWithL (t :: ts) pat then some i else searchSubGo pat ts (i + 1)

/-- Offset of the first (case-sensitive) occurrence of `pat`, Python `str.find`. -/
def searchSub (text pat : List Char) : Option Nat := searchSubGo pat text 0

/-- Python `pat in text`. -/
def containsSub (text pat : List Char) : Bool := (searchSub text pat).isSome

/-- Scanner behind `rfindSub`. -/
def rfindSubGo (pat : List Char) : List Char → Nat → Option Nat → Option Nat
  | [], i, best => if startsWithL [] pat then some i else best
  | t :: ts, i, best =>
    rfindSubGo pat ts (i + 1) (if startsWithL (t :: ts) pat then some i else best)

/-- Python `str.rfind(pat)`: offset of the last occurrence (`none` for -1). -/
def rfindSub (text pat : List Char) : Option Nat := rfindSubGo pat text 0 none

/-- Scanner behind `rfind2`. -/
def rfind2Go (a b : Char) : List Char → Nat → Option Nat → Option Nat
  | x :: y :: rest, i, best =>
    rfind2Go a b (y :: rest) (i + 1) (if x = a && y = b then some i else best)
  | _, _, best => best

/-- Python `str.rfind` of the two-character string `a ++ b` (`none` for -1). -/
def rfind2 (l : List Char) (a b : Char) : Option Nat := rfind2Go a b l 0 none

/-- Python `str.find` of the two-character string `a ++ b` (`none` for -1). -/
def find2 : List Char → Char → Char → Option Nat
  | x :: y :: rest, a, b =>
    if x = a && y = b then some 0 else (find2 (y :: rest) a b).map (· + 1)
  | _, _, _ => none

/-- Max of two optional numbers, modelling Python `max` over ints where
`-1` encodes "not found" (found offsets are always ≥ 0 > -1). -/
def omax : Option Nat → Option Nat → Option Nat
  | none, b => b
  | some a, none => some a
  | some a, some b => some (max a b)

/-- Python `int(s)` on a digit-only string, `none` otherwise (the source
wraps such conversions in `try/except ValueError`). -/
def parseNat (l : List Char) : Option Nat :=
  if l ≠ [] && l.all isDigitCh then some (natOfDigits l) else none

/-! ## citation_context.py -/

/-- Class `[\d.]`. -/
def isDigitDot (c : Char) : Bool := isDigitCh c || c = '.'

/-- Class `[,\s]`. -/
def isCommaSpace (c : Char) : Bool := c = ',' || isSpaceCh c

/-- Class `[,–-]` (comma, en-dash, hyphen). -/
def isSepDash (c : Char) : Bool := c = ',' || c = '–' || c = '-'

/-- Class `[–-]` (en-dash, hyphen). -/
def isDash (c : Char) : Bool := c = '–' || c = '-'

/-- Class `[-–]` (hyphen, en-dash). -/
def isDashAlt (c : Char) : Bool := c = '-' || c = '–'

/-- `\s+`. -/
def wsp1 : Re := Re.rep 1 none (Re.cls isSpaceCh)

/-- `\s*`. -/
def wsp0 : Re := Re.star (Re.cls isSpaceCh)

/-- `\d+`. -/
def digits1 : Re := Re.rep 1 none (Re.cls isDigitCh)

/-- `\d{1,3}`. -/
def digits13 : Re := Re.rep 1 (some 3) (Re.cls isDigitCh)

/-- `\d{4}`. -/
def digits4 : Re := Re.rep 4 (some 4) (Re.cls isDigitCh)

/-- Literal from a character list (case-sensitive), `re.escape` semantics. -/
def Re.litL (l : List Char) : Re := Re.seq (l.map Re.ch)

/-- Literal from a character list (case-insensitive). -/
def Re.litCIL (l : List Char) : Re := Re.seq (l.map Re.chCI)

/-- `r'10\.\d{4}/'` — the DOI-prefix regex of `find_reference_section_start`,
`is_in_reference_section` and `find_citation_contexts` (no IGNORECASE). -/
def doiPrefixRe : Re := Re.seq [Re.lit "10.", digits4, Re.ch '/']

/-- Loop of `find_reference_section_start`: `for i in range(len(ps) - 3)`
with its early returns. -/
def frssLoop (n : Nat) (ps : List Nat) (i : Nat) : Nat :=
  if i + 3 < ps.length then
    if ps.getD (i + 3) 0 - ps.getD i 0 < 1000 then
      if i + 10 < ps.length then
        if ps.getD (i + 10) 0 - ps.getD i 0 < 5000 then ps.getD i 0
        else frssLoop n ps (i + 1)
      else ps.getD i 0
    else frssLoop n ps (i + 1)
  else n
termination_by ps.length - i
decreasing_by all_goals omega

/-- `find_reference_section_start` (citation_context.py:81). -/
def find_reference_section_start (text : List Char) : Nat :=
  let doi_positions := (Re.finditer doiPrefixRe text).map (fun m => m.mstart)
  if doi_positions.length < 4 then text.length
  else frssLoop text.length doi_positions 0

/-- The reference-number regex of `find_reference_number_for_doi`:
`r'(?:^|\n)\s*(\d{1,3})(?:\.(?!\d)|[\s\)])(?![\d/])'`. -/
def refNumRe : Re :=
  Re.seq [Re.alt Re.bos (Re.ch '\n'), wsp0, Re.grp 1 digits13,
    Re.alt (Re.cat (Re.ch '.') (Re.nlookA (Re.cls isDigitCh)))
      (Re.cls (fun c => isSpaceCh c || c = ')')),
    Re.nlookA (Re.cls (fun c => isDigitCh c || c = '/'))]

/-- `r'\d{4}/'`, matched with `re.match` against the 20 characters after a
candidate reference number (the DOI-prefix filter). -/
def doiTailRe : Re := Re.seq [digits4, Re.ch '/']

/-- `r'10\.\d{4,}/[^\s]+'` — the reference-section DOI regex of
`find_reference_number_for_doi` pattern 2. -/
def refDoiRe : Re :=
  Re.seq [Re.lit "10.", Re.rep 4 none (Re.cls isDigitCh), Re.ch '/',
    Re.rep 1 none (Re.cls (fun c => !isSpaceCh c))]

/-- `find_reference_number_for_doi` (citation_context.py:108).  The
`re.search(re.escape(doi), text, re.IGNORECASE)` call is embedded as the
case-insensitive literal search `searchCI`. -/
def find_reference_number_for_doi (text doi : List Char) : Option Nat :=
  match searchCI text doi with
  | none => none
  | some doi_pos =>
    let preceding := pySlice text (doi_pos - 500) doi_pos
    let ref_numbers := Re.finditer refNumRe preceding
    let valid_refs := ref_numbers.filterMap (fun m =>
      let num := natOfDigits (m.groupTxt preceding 1)
      let remaining := pySlice preceding m.mend (m.mend + 20)
      if num = 10 && (Re.rmatch doiTailRe remaining).isSome then none else some num)
    match valid_refs.getLast? with
    | some n => some n
    | none =>
      let ref_start := find_reference_section_start text
      if ref_start < text.length then
        let ref_section := text.drop ref_start
        let ref_dois := Re.finditer refDoiRe ref_section
        match ref_dois.findIdx? (fun m => containsCISub (m.matchedTxt ref_section) doi) with
        | some i => some (i + 1)
        | none => none
      else none

/-- Bracket pattern 1 of `find_numbered_citations`: `r'\[([^\]]*)\]'`. -/
def bracketRe : Re :=
  Re.seq [Re.ch '[', Re.grp 1 (Re.star (Re.cls (fun c => c ≠ ']'))), Re.ch ']']

/-- Inner range regex `r'(\d+)\s*[-–]\s*(\d+)'` run over bracket and
parenthesis contents. -/
def innerRangeRe : Re :=
  Re.seq [Re.grp 1 digits1, wsp0, Re.cls isDashAlt, wsp0, Re.grp 2 digits1]

/-- `rf'\b{ref_str}\b'`. -/
def wordNumRe (refStr : List Char) : Re := Re.seq [Re.wordB, Re.litL refStr, Re.wordB]

/-- `r'\b\d{4}\b'` (the year guard of the parenthetical pattern). -/
def yearTokenRe : Re := Re.seq [Re.wordB, digits4, Re.wordB]

/-- Does some inner dashed range of `content` contain `n`?  Mirrors the
`for range_match in re.finditer(...): if start <= n <= end: ...; break`
loops of `find_numbered_citations`. -/
def innerRangeHit (content : List Char) (n : Nat) : Bool :=
  (Re.finditer innerRangeRe content).any (fun rm =>
    natOfDigits (rm.groupTxt content 1) ≤ n && n ≤ natOfDigits (rm.groupTxt content 2))

/-- Parenthetical pattern 1b: `r'\((\d{1,3}(?:\s*[,–-]\s*\d{1,3})*)\)'`. -/
def parenCiteRe : Re :=
  Re.seq [Re.ch '(',
    Re.grp 1 (Re.cat digits13 (Re.star (Re.seq [wsp0, Re.cls isSepDash, wsp0, digits13]))),
    Re.ch ')']

/-- Superscript pattern 2: `rf'[a-zA-Z]({ref_str})(?:[,\s]|$)'`. -/
def superRe (refStr : List Char) : Re :=
  Re.seq [Re.cls isAlphaCh, Re.grp 1 (Re.litL refStr),
    Re.alt (Re.cls isCommaSpace) Re.dollar]

/-- Superscript comma-group pattern 2b: `r'[a-zA-Z](\d{1,3}(?:,\d{1,3})+)'`. -/
def groupSuperRe : Re :=
  Re.seq [Re.cls isAlphaCh,
    Re.grp 1 (Re.cat digits13 (Re.rep 1 none (Re.cat (Re.ch ',') digits13)))]

/-- Space-separated superscript pattern 3:
`rf'[a-zA-Z]\s+{ref_str}(?:\s*[,–-]\s*\d+)*(?:\s|$|[,.])'`. -/
def spaceSuperRe (refStr : List Char) : Re :=
  Re.seq [Re.cls isAlphaCh, wsp1, Re.litL refStr,
    Re.star (Re.seq [wsp0, Re.cls isSepDash, wsp0, digits1]),
    Re.alts [Re.cls isSpaceCh, Re.dollar, Re.cls (fun c => c = ',' || c = '.')]]

/-- `r'\b\d{1,3}\b'` — the nearby-number counter of pattern 3. -/
def nearbyNumRe : Re := Re.seq [Re.wordB, digits13, Re.wordB]

/-- Post-parenthesis pattern 5:
`rf'\)\s*{ref_str}(?:\s*[,–-]\s*\d+)*(?:\s|$|[,.])'`. -/
def parenSuperRe (refStr : List Char) : Re :=
  Re.seq [Re.ch ')', wsp0, Re.litL refStr,
    Re.star (Re.seq [wsp0, Re.cls isSepDash, wsp0, digits1]),
    Re.alts [Re.cls isSpaceCh, Re.dollar, Re.cls (fun c => c = ',' || c = '.')]]

/-- Dashed-range pattern 4: `r'(\d{1,3})\s*[–-]\s*(\d{1,3})'`. -/
def bareRangeRe : Re :=
  Re.seq [Re.grp 1 digits13, wsp0, Re.cls isDash, wsp0, Re.grp 2 digits13]

/-- Class `[kMG]` under IGNORECASE. -/
def isKMG (c : Char) : Bool := c.toLower = 'k' || c.toLower = 'm' || c.toLower = 'g'

/-- Class `[Ωω]` under IGNORECASE (Lean `Char.toLower` is ASCII-only, so the
Greek pair is spelled out). -/
def isOhm (c : Char) : Bool := c = 'Ω' || c = 'ω'

/-- The deny-list of pattern 4 (`skip_patterns`), searched with
`re.IGNORECASE` over `before + match + after`. -/
def skipPats : List Re :=
  [Re.litCI "10.",
   Re.litCI "0000-",
   Re.seq [digits4, Re.ch '-', digits4],
   Re.seq [Re.opt (Re.cls isKMG), Re.litCI "Hz"],
   Re.seq [Re.opt (Re.cls isKMG), Re.cls isOhm],
   Re.seq [digits1, wsp0, Re.opt (Re.cls isKMG), Re.cls isOhm],
   Re.seq [Re.cls isAlphaCh, digits1, Re.chCI 'x', digits1],
   Re.seq [Re.ch '-', Re.rep 2 (some 4) (Re.cls isDigitCh), Re.ch '.']]

/-- Class `[HzΩωms%°]` under IGNORECASE. -/
def isUnitCh (c : Char) : Bool :=
  c.toLower = 'h' || c.toLower = 'z' || c.toLower = 'm' || c.toLower = 's' ||
  c = '%' || c = '°' || isOhm c

/-- `r'\s*[kMG]?[HzΩωms%°]'`, matched with `re.match` (anchored) against the
text following a dashed range. -/
def unitAfterRe : Re := Re.seq [wsp0, Re.opt (Re.cls isKMG), Re.cls isUnitCh]

/-- `r'\d\s*$'`. -/
def digitBeforeRe : Re := Re.seq [Re.cls isDigitCh, wsp0, Re.dollar]

/-- `r'[a-zA-Z]\s*$'`. -/
def letterBeforeRe : Re := Re.seq [Re.cls isAlphaCh, wsp0, Re.dollar]

/-- `find_numbered_citations` (citation_context.py:166): all positions where
reference number `ref_number` is cited, across the bracket, parenthetical,
superscript, space-separated and dashed-range pattern families, with the
final `list(set(positions))` modelled as first-occurrence deduplication. -/
def find_numbered_citations (text : List Char) (ref_number : Nat) : List Nat :=
  let ref_str := (toString ref_number).data
  let p1 := (Re.finditer bracketRe text).flatMap (fun m =>
    let content := m.groupTxt text 1
    if (Re.rsearch (wordNumRe ref_str) content).isSome then [m.mstart]
    else if content.contains '-' || content.contains '–' then
      if innerRangeHit content ref_number then [m.mstart] else []
    else [])
  let p1b := (Re.finditer parenCiteRe text).flatMap (fun m =>
    let content := m.groupTxt text 1
    if (Re.rsearch yearTokenRe content).isSome then []
    else if (Re.rsearch (wordNumRe ref_str) content).isSome then [m.mstart]
    else if content.contains '-' || content.contains '–' then
      if innerRangeHit content ref_number then [m.mstart] else []
    else [])
  let p2 := (Re.finditer (superRe ref_str) text).map (fun m => m.mstart)
  let p2b := (Re.finditer groupSuperRe text).flatMap (fun m =>
    let numbers := (pySplitComma (m.groupTxt text 1)).map natOfDigits
    if numbers.contains ref_number then [m.mstart] else [])
  let p3 := (Re.finditer (spaceSuperRe ref_str) text).flatMap (fun m =>
    let context := pySlice text (m.mstart - 5) (min text.length (m.mend + 20))
    if (Re.finditer nearbyNumRe context).length ≥ 1 then [m.mstart] else [])
  let p5 := (Re.finditer (parenSuperRe ref_str) text).map (fun m => m.mstart)
  let p4 := (Re.finditer bareRangeRe text).flatMap (fun m =>
    let a := natOfDigits (m.groupTxt text 1)
    let b := natOfDigits (m.groupTxt text 2)
    if a ≤ ref_number && ref_number ≤ b then
      let before := pySlice text (m.mstart - 30) m.mstart
      let after := pySlice text m.mend (min text.length (m.mend + 30))
      let combined := before ++ m.matchedTxt text ++ after
      let should_skip := skipPats.any (fun p => (Re.rsearch p combined).isSome)
      let should_skip := should_skip || (Re.rmatch unitAfterRe after).isSome
      let should_skip := should_skip || (Re.rsearch digitBeforeRe before).isSome
      if !should_skip && (Re.rsearch letterBeforeRe before).isSome then [m.mstart] else []
    else [])
  pydedup (p1 ++ p1b ++ p2 ++ p2b ++ p3 ++ p5 ++ p4)

/-- `normalize_author_name` (citation_context.py:304) applies NFKD
decomposition and drops combining marks; on the ASCII author names this
development instantiates it is the identity, and it is modelled as such. -/
def normalize_author_name (name : List Char) : List Char := name

/-- `str(year)` and the adjacent years, in the order the source builds them:
the exact year first, then `year-delta, year+delta` for
`delta = 1..year_tolerance`. -/
def yearsToSearch (year : Int) (year_tolerance : Nat) : List (List Char) :=
  (toString year).data ::
    (List.range year_tolerance).flatMap (fun d =>
      [(toString (year - ((d : Int) + 1))).data, (toString (year + ((d : Int) + 1))).data])

/-- `[a-z]?` under IGNORECASE (the optional suffix letter after a year). -/
def optLetter : Re := Re.opt (Re.cls isAlphaCh)

/-- `\s+(?:and|&)\s+` under IGNORECASE. -/
def andJoin : Re := Re.seq [wsp1, Re.alt (Re.litCI "and") (Re.litCI "&"), wsp1]

/-- `\s+et\s+al\.?` under IGNORECASE. -/
def etAl : Re := Re.seq [wsp1, Re.litCI "et", wsp1, Re.litCI "al", Re.opt (Re.ch '.')]

/-- The three single-author shapes for one year string:
`\(A\s*,?\s*Y[a-z]?\)`, `A\s*\(Y[a-z]?\)`, `A\s*,\s*Y[a-z]?`. -/
def singleAuthorPats (a ys : List Char) : List Re :=
  [Re.seq [Re.ch '(', Re.litCIL a, wsp0, Re.opt (Re.ch ','), wsp0, Re.litCIL ys, optLetter, Re.ch ')'],
   Re.seq [Re.litCIL a, wsp0, Re.ch '(', Re.litCIL ys, optLetter, Re.ch ')'],
   Re.seq [Re.litCIL a, wsp0, Re.ch ',', wsp0, Re.litCIL ys, optLetter]]

/-- The three two-author shapes for one year string and one spelling of the
second author. -/
def twoAuthorPats (a se ys : List Char) : List Re :=
  [Re.seq [Re.ch '(', Re.litCIL a, andJoin, Re.litCIL se, wsp0, Re.opt (Re.ch ','), wsp0,
     Re.litCIL ys, optLetter, Re.ch ')'],
   Re.seq [Re.litCIL a, andJoin, Re.litCIL se, wsp0, Re.ch '(', Re.litCIL ys, optLetter, Re.ch ')'],
   Re.seq [Re.litCIL a, andJoin, Re.litCIL se, wsp0, Re.ch ',', wsp0, Re.litCIL ys, optLetter]]

/-- The four `et al.` shapes for one year string (including the no-comma
variant). -/
def etAlPats (a ys : List Char) : List Re :=
  [Re.seq [Re.ch '(', Re.litCIL a, etAl, wsp0, Re.opt (Re.ch ','), wsp0, Re.litCIL ys, optLetter, Re.ch ')'],
   Re.seq [Re.litCIL a, etAl, wsp0, Re.ch '(', Re.litCIL ys, optLetter, Re.ch ')'],
   Re.seq [Re.litCIL a, etAl, wsp0, Re.ch ',', wsp0, Re.litCIL ys, optLetter],
   Re.seq [Re.litCIL a, etAl, wsp1, Re.litCIL ys, optLetter]]

/-- The year-independent numbered forms: `A\s*\(\d+\)`,
`A (and|&) B\s*\(\d+\)`, `A et al\.?\s*\(\d+\)`. -/
def numberedNameSingle (a : List Char) : Re :=
  Re.seq [Re.litCIL a, wsp0, Re.ch '(', digits1, Re.ch ')']

/-- Two-author year-independent numbered form. -/
def numberedNameTwo (a se : List Char) : Re :=
  Re.seq [Re.litCIL a, andJoin, Re.litCIL se, wsp0, Re.ch '(', digits1, Re.ch ')']

/-- `et al.` year-independent numbered form. -/
def numberedNameEtAl (a : List Char) : Re :=
  Re.seq [Re.litCIL a, etAl, wsp0, Re.ch '(', digits1, Re.ch ')']

/-- The full pattern list `find_author_citations` builds, mirroring its
nested loops (outer loop over the raw and normalized first-author
spellings, inner loop over candidate years, then the year-independent
numbered forms; for two authors both spellings of the second author are
tried even when equal, exactly as the source does). -/
def authorCitationPats (authors : List (List Char)) (year : Int) (tol : Nat) : List Re :=
  match authors with
  | [] => []
  | first_author :: restAuthors =>
    let fnorm := normalize_author_name first_author
    let author_patterns := if fnorm ≠ first_author then [first_author, fnorm] else [first_author]
    let years := yearsToSearch year tol
    author_patterns.flatMap (fun a =>
      (years.flatMap (fun ys =>
        (match restAuthors with
         | [] => singleAuthorPats a ys
         | [second] =>
           (twoAuthorPats a second ys) ++ (twoAuthorPats a (normalize_author_name second) ys)
         | _ => []) ++
        (if restAuthors.length ≥ 1 then etAlPats a ys else []))) ++
      (match restAuthors with
       | [] => [numberedNameSingle a]
       | [second] =>
         [numberedNameTwo a second, numberedNameTwo a (normalize_author_name second)]
       | _ => []) ++
      (if restAuthors.length ≥ 1 then [numberedNameEtAl a] else []))

/-- `find_author_citations` (citation_context.py:314): all match starts of
the author-year patterns, searched case-insensitively, with no
deduplication at this level.  `re.escape` on the author names is the
identity of literal treatment, which `Re.litCIL` provides directly. -/
def find_author_citations (text : List Char) (authors : List (List Char)) (year : Int)
    (year_tolerance : Nat) : List Nat :=
  if authors.isEmpty || year = 0 then []
  else (authorCitationPats authors year year_tolerance).flatMap (fun p =>
    (Re.finditer p text).map (fun m => m.mstart))

/-- The stop-word set of `find_title_mentions`. -/
def stop_words : List (List Char) :=
  (["the", "a", "an", "of", "in", "on", "for", "and", "or", "to", "with"].map String.data)

/-- `find_title_mentions` (citation_context.py:409). -/
def find_title_mentions (text title : List Char) : List Nat :=
  if title.length < 20 then []
  else
    let words := (pySplitWs title).filter (fun w => !stop_words.contains (lowerL w))
    if words.length ≥ 3 then
      let search_phrase := List.intercalate [' '] (words.take (min 5 words.length))
      (Re.finditer (Re.litCIL search_phrase) text).map (fun m => m.mstart)
    else []

/-- Result record of `extract_context` (the `cited_doi`/`cited_metadata`
echo fields attached by the orchestrator are omitted: they copy inputs). -/
structure CtxRes where
  context : List Char
  cstart : Nat
  cend : Nat
  citation_position : Nat
deriving DecidableEq, Repr

/-- Start-snapping block of `extract_context`: move the window start to
just after the nearest sentence end found in the 100 characters before it
(`start = max(0, start-100) + sent_end + 2`), mirroring the source's
`max`-of-`rfind`s with `-1` encoded as `none`. -/
def ecSnapStart (text : List Char) (start0 : Nat) : Nat :=
  if 0 < start0 then
    let base := start0 - 100
    let region := pySlice text base start0
    match omax (omax (rfind2 region '.' ' ') (rfind2 region '.' '\n'))
        (omax (rfind2 region '?' ' ') (rfind2 region '!' ' ')) with
    | some sent_end => base + sent_end + 2
    | none => start0
  else start0

/-- End-snapping block of `extract_context`: extend the window end to the
first sentence end found in the 100 characters after it, with the source's
`9999` sentinel (`find` returning `-1` is mapped to `9999`). -/
def ecSnapEnd (text : List Char) (end0 : Nat) : Nat :=
  if end0 < text.length then
    let region := pySlice text end0 (end0 + 100)
    let f1 := (find2 region '.' ' ').getD 9999
    let f2 := (find2 region '.' '\n').getD 9999
    let f3 := (find2 region '?' ' ').getD 9999
    let f4 := (find2 region '!' ' ').getD 9999
    let sent_end := min (min (min f1 f2) f3) f4
    if sent_end ≠ 9999 then end0 + sent_end + 1 else end0
  else end0

/-- `extract_context` (citation_context.py:430).  Python's
`max(0, position - context_chars)` is truncated `Nat` subtraction. -/
def extract_context (text : List Char) (position : Nat) (context_chars : Nat) : CtxRes :=
  let start1 := ecSnapStart text (position - context_chars)
  let end1 := ecSnapEnd text (min text.length (position + context_chars))
  { context := pyStrip (pySlice text start1 end1),
    cstart := start1, cend := end1, citation_position := position }

/-- `is_in_reference_section` (citation_context.py:469). -/
def is_in_reference_section (text : List Char) (position : Nat) : Bool :=
  let text_before := lowerL (pySlice text (position - 5000) position)
  let ref_markers : List (List Char) :=
    (["references\n", "bibliography\n", "literature cited", "works cited"].map String.data)
  let viaMarker := ref_markers.any (fun marker =>
    containsSub text_before marker &&
      let marker_pos := (rfindSub text_before marker).getD 0
      let text_after_marker := text_before.drop marker_pos
      (Re.finditer doiPrefixRe text_after_marker).length > 3)
  viaMarker ||
    let surrounding := pySlice text (position - 200) (min text.length (position + 200))
    (Re.finditer doiPrefixRe surrounding).length > 2

/-- Metadata of the cited paper, as returned by `get_paper_metadata`.  That
function performs a CrossRef network call; `find_citation_contexts` is
embedded with the fetched metadata as an explicit parameter (`none`
modelling a failed fetch). -/
structure PaperMeta where
  authors : List (List Char)
  myear : Int
  title : List Char
deriving DecidableEq, Repr

/-- One result record of `find_citation_contexts`.  The per-method echo
fields (`authors`, `year`, `title`, `cited_doi`, `cited_metadata`), which
merely copy inputs, are omitted. -/
structure Citation where
  context : List Char
  cstart : Nat
  cend : Nat
  citation_position : Nat
  method : String
  reference_number : Option Nat
deriving DecidableEq, Repr

/-- The shared dedup-and-filter loop of `find_citation_contexts`: for each
position, if its key (`key pos`) is not in the shared `seen` set, and the
position is not filtered out by `skip`, record the key and keep the
position.  The numbered pass uses the identity key; the author-year and
title passes use `pos / 100` (the bucket).  Skipped positions do not enter
`seen`, exactly as in the source (`continue` before `seen_positions.add`).
Returns (kept positions, final seen set). -/
def dedupPass (skip : Nat → Bool) (key : Nat → Nat) :
    List Nat → List Nat → List Nat × List Nat
  | [], seen => ([], seen)
  | p :: ps, seen =>
    if (seen.contains (key p) : Bool) then dedupPass skip key ps seen
    else if skip p then dedupPass skip key ps seen
    else
      let r := dedupPass skip key ps (key p :: seen)
      (p :: r.1, r.2)

/-- Numbered-citation pass of `find_citation_contexts` (method 2). -/
def fccNumbered (text : List Char) (refNum : Option Nat) (skip : Nat → Bool) :
    List Nat × List Nat :=
  match refNum with
  | some n => if n = 0 then ([], []) else dedupPass skip (fun p => p) (find_numbered_citations text n) []
  | none => ([], [])

/-- Author-year pass of `find_citation_contexts` (method 3); the source
calls `find_author_citations` with its default `year_tolerance = 1`. -/
def fccAuthor (text : List Char) (md : PaperMeta) (skip : Nat → Bool) (seen : List Nat) :
    List Nat × List Nat :=
  if !md.authors.isEmpty && md.myear ≠ 0 then
    dedupPass skip (fun p => p / 100) (find_author_citations text md.authors md.myear 1) seen
  else ([], seen)

/-- Title-mention pass of `find_citation_contexts` (method 4). -/
def fccTitle (text : List Char) (md : PaperMeta) (skip : Nat → Bool) (seen : List Nat) :
    List Nat × List Nat :=
  if !md.title.isEmpty then
    dedupPass skip (fun p => p / 100) (find_title_mentions text md.title) seen
  else ([], seen)

/-- Build the result record for one kept position. -/
def mkCitation (text : List Char) (context_chars : Nat) (method : String)
    (rn : Option Nat) (p : Nat) : Citation :=
  let c := extract_context text p context_chars
  { context := c.context, cstart := c.cstart, cend := c.cend,
    citation_position := p, method := method, reference_number := rn }

/-- `find_citation_contexts` (citation_context.py:494): resolve the
reference number, run the three match passes through the shared
`seen_positions` set, extract context for each surviving position, and
sort by citation position (Python's stable `sort`). -/
def find_citation_contexts (text : List Char) (metadata : Option PaperMeta)
    (cited_doi : List Char) (context_chars : Nat)
    (exclude_reference_section : Bool) : List Citation :=
  match metadata with
  | none => []
  | some md =>
    let skip := fun pos => exclude_reference_section && is_in_reference_section text pos
    let refNum := find_reference_number_for_doi text cited_doi
    let pass1 := fccNumbered text refNum skip
    let pass2 := fccAuthor text md skip pass1.2
    let pass3 := fccTitle text md skip pass2.2
    let results :=
      pass1.1.map (mkCitation text context_chars "numbered_citation" refNum) ++
      pass2.1.map (mkCitation text context_chars "author_year" none) ++
      pass3.1.map (mkCitation text context_chars "title_mention" none)
    pysortBy (fun a b => a.citation_position ≤ b.citation_position) results

/-! ## find_reuse.py — ARCHIVE_PATTERNS and find_archive_ids -/

/-- `(\d{6})`. -/
def grp6d : Re := Re.grp 1 (Re.rep 6 (some 6) (Re.cls isDigitCh))

/-- `(ds\d{6})` under IGNORECASE. -/
def grpDs6 : Re := Re.grp 1 (Re.seq [Re.chCI 'd', Re.chCI 's', Re.rep 6 (some 6) (Re.cls isDigitCh)])

/-- Class `[,:\s]`. -/
def isCommaColonSpace (c : Char) : Bool := c = ',' || c = ':' || isSpaceCh c

/-- Class `[:\s]`. -/
def isColonSpace (c : Char) : Bool := c = ':' || isSpaceCh c

/-- Class `[A-Za-z0-9-]` (same set under IGNORECASE). -/
def isAlnumDash (c : Char) : Bool := isAlphaCh c || isDigitCh c || c = '-'

/-- Class `[a-z]` under IGNORECASE (matches both cases). -/
def isLowerCI (c : Char) : Bool := isAlphaCh c

/-- Class `[a-z0-9-]` under IGNORECASE. -/
def isLowerNumDashCI (c : Char) : Bool := isAlphaCh c || isDigitCh c || c = '-'

/-- Class `[a-f0-9-]` under IGNORECASE. -/
def isHexDashCI (c : Char) : Bool :=
  ('a' ≤ c.toLower && c.toLower ≤ 'f') || isDigitCh c || c = '-'

/-- Class `[a-z/._0-9]` under IGNORECASE. -/
def isKgLive (c : Char) : Bool := isAlphaCh c || isDigitCh c || c = '/' || c = '.' || c = '_'

/-- `ARCHIVE_PATTERNS['DANDI Archive']` (find_reuse.py:103), transcribed
pattern by pattern; all archive patterns are searched with `re.IGNORECASE`,
so literals use the case-insensitive constructors. -/
def dandiPatterns : List (Re × String) :=
  [(Re.seq [Re.litCI "10.48324/dandi.", grp6d,
      Re.opt (Re.cat (Re.ch '/') (Re.rep 1 none (Re.cls isDigitDot)))], "doi"),
   (Re.seq [Re.litCI "dandiarchive.org/dandiset/", grp6d], "url"),
   (Re.seq [Re.litCI "gui.dandiarchive.org/#/dandiset/", grp6d], "gui_url"),
   (Re.seq [Re.litCI "DANDI:", wsp0, grp6d], "text_colon"),
   (Re.seq [Re.litCI "DANDI", wsp1, grp6d], "text_space"),
   (Re.seq [Re.litCI "dandiset", wsp1, grp6d], "dandiset_text"),
   (Re.seq [Re.litCI "dandiset/", grp6d], "dandiset_path"),
   (Re.seq [Re.litCI "DANDI", Re.opt (Re.cat wsp1 (Re.litCI "archive")),
      Re.opt (Re.cat wsp1 (Re.litCI "identifier")),
      Re.rep 1 none (Re.cls isCommaColonSpace), grp6d], "identifier"),
   (Re.seq [Re.alt (Re.litCI "dandiarchive.org") (Re.litCI "DANDI"),
      Re.rep 1 none (Re.cls isCommaSpace), Re.litCI "ID", Re.star (Re.cls isColonSpace), grp6d],
     "id_format"),
   (Re.seq [Re.litCI "DANDI", wsp1, Re.litCI "ID#", Re.rep 1 none (Re.cls isColonSpace), grp6d],
     "id_hash_format"),
   (Re.seq [Re.litCI "DANDI", wsp1, Re.litCI "Archive", wsp1, Re.litCI "ID",
      Re.rep 1 none (Re.cls isColonSpace), grp6d], "archive_id"),
   (Re.seq [Re.litCI "DANDI", wsp0, Re.ch '(', Re.litCI "dataset", wsp1, Re.litCI "ID",
      Re.opt (Re.chCI 's'), Re.opt (Re.ch ':'), wsp0, grp6d], "dataset_ids_paren"),
   (Re.seq [Re.litCI "DANDI", wsp0, Re.ch '(', Re.star (Re.cls (fun c => c ≠ ')')),
      Re.wordB, Re.litCI "and", wsp1, grp6d, Re.ch ')'], "dataset_ids_paren_and")]

/-- `ARCHIVE_PATTERNS['OpenNeuro']` (find_reuse.py:129). -/
def openNeuroPatterns : List (Re × String) :=
  [(Re.seq [Re.litCI "10.18112/openneuro.", grpDs6], "doi"),
   (Re.seq [Re.litCI "openneuro.org/datasets/", grpDs6], "url"),
   (Re.seq [Re.litCI "OpenNeuro:", wsp0, grpDs6], "text_colon"),
   (Re.seq [Re.litCI "OpenNeuro", wsp1, grpDs6], "text_space"),
   (Re.seq [Re.wordB, grpDs6, Re.wordB], "dataset_id")]

/-- `ARCHIVE_PATTERNS['Figshare']` (find_reuse.py:140). -/
def figsharePatterns : List (Re × String) :=
  [(Re.seq [Re.litCI "10.6084/m9.figshare.", Re.grp 1 digits1], "doi"),
   (Re.seq [Re.litCI "figshare.com/articles/", Re.rep 1 none (Re.cls (fun c => c ≠ '/')),
      Re.ch '/', Re.grp 1 digits1], "url"),
   (Re.seq [Re.litCI "figshare.com/ndownloader/files/", Re.grp 1 digits1], "download_url"),
   (Re.seq [Re.litCI "figshare:", wsp0, Re.grp 1 (Re.rep 6 none (Re.cls isDigitCh))], "text_colon"),
   (Re.seq [Re.litCI "figshare", wsp1, Re.grp 1 (Re.rep 6 none (Re.cls isDigitCh))], "text_space")]

/-- `ARCHIVE_PATTERNS['PhysioNet']` (find_reuse.py:151). -/
def physioNetPatterns : List (Re × String) :=
  [(Re.seq [Re.litCI "10.13026/", Re.grp 1 (Re.rep 1 none (Re.cls isAlnumDash))], "doi"),
   (Re.seq [Re.litCI "physionet.org/content/",
      Re.grp 1 (Re.cat (Re.cls isLowerCI) (Re.rep 2 none (Re.cls isLowerNumDashCI))),
      Re.ch '/', Re.cls isDigitCh], "url"),
   (Re.seq [Re.litCI "physionet.org/physiobank/database/",
      Re.grp 1 (Re.cat (Re.cls isLowerCI) (Re.rep 2 none (Re.cls isLowerNumDashCI)))],
     "physiobank_url"),
   (Re.seq [Re.litCI "PhysioNet", wsp1, Re.litCI "database", wsp1,
      Re.grp 1 (Re.cat (Re.cls isLowerCI) (Re.rep 3 none (Re.cls isLowerNumDashCI)))],
     "text_database")]

/-- `ARCHIVE_PATTERNS['EBRAINS']` (find_reuse.py:160). -/
def ebrainsPatterns : List (Re × String) :=
  [(Re.seq [Re.litCI "10.25493/", Re.grp 1 (Re.rep 1 none (Re.cls isAlnumDash))], "doi"),
   (Re.seq [Re.litCI "kg.ebrains.eu/search/instances/",
      Re.opt (Re.cat (Re.rep 1 none (Re.cls isLowerCI)) (Re.ch '/')),
      Re.grp 1 (Re.rep 36 (some 36) (Re.cls isHexDashCI))], "kg_url"),
   (Re.seq [Re.litCI "search.kg.ebrains.eu/instances/",
      Re.opt (Re.cat (Re.rep 1 none (Re.cls isLowerCI)) (Re.ch '/')),
      Re.grp 1 (Re.rep 36 (some 36) (Re.cls isHexDashCI))], "kg_search_url"),
   (Re.seq [Re.litCI "kg.ebrains.eu/search/live/", Re.rep 1 none (Re.cls isKgLive),
      Re.ch '/', Re.grp 1 (Re.rep 36 (some 36) (Re.cls isHexDashCI))], "kg_live_url"),
   (Re.seq [Re.litCI "data.ebrains.eu/datasets/",
      Re.grp 1 (Re.rep 36 (some 36) (Re.cls isHexDashCI))], "data_url"),
   (Re.seq [Re.litCI "EBRAINS", Re.rep 1 none (Re.cls isColonSpace),
      Re.grp 1 (Re.rep 36 (some 36) (Re.cls isHexDashCI))], "text_uuid"),
   (Re.seq [Re.litCI "EBRAINS", wsp1,
      Re.alt (Re.litCI "dataset") (Re.seq [Re.litCI "data", wsp0, Re.litCI "set"]),
      Re.rep 1 none (Re.cls isColonSpace),
      Re.grp 1 (Re.rep 1 none (Re.cls isAlnumDash))], "text_dataset")]

/-- `ARCHIVE_PATTERNS` (find_reuse.py:103-173), in dict insertion order. -/
def ARCHIVE_PATTERNS : List (String × List (Re × String)) :=
  [("DANDI Archive", dandiPatterns),
   ("OpenNeuro", openNeuroPatterns),
   ("Figshare", figsharePatterns),
   ("PhysioNet", physioNetPatterns),
   ("EBRAINS", ebrainsPatterns)]

/-- `ARCHIVE_PATTERNS.get(archive_name, [])`. -/
def lookupArchive (archive_name : String) : List (Re × String) :=
  match ARCHIVE_PATTERNS.find? (fun e => e.1 = archive_name) with
  | some e => e.2
  | none => []

/-- One match record of `find_archive_ids` (the Python dict with keys
`id`, `pattern_type`, `matched_string` and optionally `doi`). -/
structure AMatch where
  aid : List Char
  pattern_type : String
  matched_string : List Char
  doi : Option (List Char)
deriving DecidableEq, Repr

/-- All raw matches of an archive's patterns over `text`, in pattern-table
order then text order — the sequence of matches the `find_archive_ids`
loops iterate over. -/
def rawArchiveMatches (text : List Char) (archive_name : String) : List AMatch :=
  (lookupArchive archive_name).flatMap (fun pt =>
    (Re.finditer pt.1 text).map (fun m =>
      let matched_str := m.matchedTxt text
      { aid := m.groupTxt text 1, pattern_type := pt.2, matched_string := matched_str,
        doi := if pt.2 = "doi" then some matched_str else none }))

/-- The `seen_ids` filter of `find_archive_ids`. -/
def faiGo : List AMatch → List (List Char) → List AMatch
  | [], _ => []
  | m :: ms, seen =>
    if seen.contains m.aid then faiGo ms seen else m :: faiGo ms (m.aid :: seen)

/-- `ArchiveFinder.find_archive_ids` (find_reuse.py:547). -/
def find_archive_ids (text : List Char) (archive_name : String) : List AMatch :=
  faiGo (rawArchiveMatches text archive_name) []

/-- Specification-level keep-first-per-id dedup (claim C10's description of
which match survives for each extracted ID). -/
def keepFirstById : List AMatch → List AMatch
  | [] => []
  | m :: ms => m :: keepFirstById (ms.filter (fun x => x.aid ≠ m.aid))
termination_by l => l.length
decreasing_by simp only [List.length_cons]; exact Nat.lt_succ_of_le (List.length_filter_le _ _)

/-! ## classify_usage.py -/

/-- One mention record of `find_dandi_mentions_with_positions` (Python dict
keys `id`, `pattern_type`, `matched_string`, `start`, `end`, and after a
merge also `matched_strings`); `id`/`start`/`end` are Lean keywords and are
spelled `mid`/`mstart`/`mend`. -/
structure DMention where
  mid : List Char
  pattern_type : String
  matched_string : List Char
  mstart : Nat
  mend : Nat
  matched_strings : Option (List (List Char))
deriving DecidableEq, Repr

/-- The sort key test `(m['id'], m['start'], -(m['end'] - m['start']))`:
`dmLe a b` holds when `a`'s key is ≤ `b`'s key (note the third component is
*descending* match length). -/
def dmLe (a b : DMention) : Bool :=
  strLt a.mid b.mid ||
    (a.mid = b.mid &&
      (a.mstart < b.mstart ||
        (a.mstart = b.mstart && b.mend - b.mstart ≤ a.mend - a.mstart)))

/-- Try to merge `m` into the first entry of the deduped list with the same
id whose (already extended) range overlaps or lies within
`PROXIMITY_THRESHOLD = 200` characters.  On a hit, the entry's range is
extended and the matched string collected; Python's
`existing['start'] - 200` over ints is safely modelled by truncated `Nat`
subtraction (both sides make the `<` comparison false when the true value
is negative). -/
def tryMergeD (m : DMention) : List DMention → Option (List DMention)
  | [] => none
  | ex :: rest =>
    if ex.mid = m.mid && !(m.mend < ex.mstart - 200 || m.mstart > ex.mend + 200) then
      let strs0 := match ex.matched_strings with
        | some l => l
        | none => [ex.matched_string]
      let strs := if strs0.contains m.matched_string then strs0 else strs0 ++ [m.matched_string]
      some (({ ex with
        mstart := min ex.mstart m.mstart, mend := max ex.mend m.mend,
        matched_strings := some strs }) :: rest)
    else (tryMergeD m rest).map (fun l => ex :: l)

/-- The dedup loop of `find_dandi_mentions_with_positions`: each match is
merged into the first close-enough existing entry, else appended. -/
def dedupD : List DMention → List DMention → List DMention
  | [], acc => acc
  | m :: ms, acc =>
    match tryMergeD m acc with
    | some acc2 => dedupD ms acc2
    | none => dedupD ms (acc ++ [m])

/-- `find_dandi_mentions_with_positions` (classify_usage.py:73): collect
every DANDI-pattern match with its span, sort by (id, start, descending
length), merge same-id matches that overlap or lie within 200 characters,
and sort the result by start position. -/
def find_dandi_mentions_with_positions (text : List Char) : List DMention :=
  let allMatches := (lookupArchive "DANDI Archive").flatMap (fun pt =>
    (Re.finditer pt.1 text).map (fun m =>
      { mid := m.groupTxt text 1, pattern_type := pt.2,
        matched_string := m.matchedTxt text,
        mstart := m.mstart, mend := m.mend, matched_strings := none }))
  let sorted := pysortBy dmLe allMatches
  let deduped := dedupD sorted []
  pysortBy (fun a b => a.mstart ≤ b.mstart) deduped

/-- Result of `extract_word_context`. -/
structure WordCtx where
  context : List Char
  context_start : Nat
  context_end : Nat
deriving DecidableEq, Repr

/-- Python `len(text.split())`. -/
def pyWordCount (l : List Char) : Nat := (pySplitWs l).length

/-- The before-the-match loop of `extract_word_context`: walk
`enumerate(before_text)`, counting positions where a word ends (a space
whose predecessor is not a space, at index > 0), and return `i + 1` for the
index reaching `target` (the `context_start` set before `break`), `none`
when the loop completes. -/
def wordSkipGo (target : Nat) : Nat → Nat → Option Char → List Char → Option Nat
  | _, _, _, [] => none
  | count, i, prev, c :: rest =>
    if isSpaceCh c && decide (0 < i) &&
        (match prev with | some pc => !isSpaceCh pc | none => false) then
      if count + 1 = target then some (i + 1)
      else wordSkipGo target (count + 1) (i + 1) (some c) rest
    else wordSkipGo target count (i + 1) (some c) rest

/-- The after-the-match loop of `extract_word_context`: walk the text after
the match with an `in_word` flag, counting completed words, and return the
index `i` at which the word count reaches `target` (the
`context_end_offset` set before `break`), `none` when the loop completes. -/
def wordEndGo (target : Nat) : Nat → Nat → Bool → List Char → Option Nat
  | _, _, _, [] => none
  | count, i, in_word, c :: rest =>
    if !isSpaceCh c then wordEndGo target count (i + 1) true rest
    else if in_word then
      if count + 1 = target then some i
      else wordEndGo target (count + 1) (i + 1) false rest
    else wordEndGo target count (i + 1) false rest

/-- `extract_word_context` (classify_usage.py:137); `num_words` is the
explicit value of the `Optional[int]` parameter (the source substitutes
`CONTEXT_WORDS = 100` for `None`). -/
def extract_word_context (text : List Char) (mstart mend : Nat) (num_words : Nat) : WordCtx :=
  let before_text := text.take mstart
  let words_before := pyWordCount before_text
  let context_start :=
    if num_words < words_before then
      (wordSkipGo (words_before - num_words) 0 0 none before_text).getD 0
    else 0
  let after_text := text.drop mend
  let words_after := pyWordCount after_text
  let context_end :=
    if num_words < words_after then
      mend + (wordEndGo num_words 0 0 false after_text).getD after_text.length
    else text.length
  { context := pyStrip (pySlice text context_start context_end),
    context_start := context_start, context_end := context_end }

/-- `CONTEXT_WORDS` (classify_usage.py:49). -/
def CONTEXT_WORDS : Nat := 100

/-- Case-insensitive match of the word `kw` with `\b` boundaries at
position `p` of `text` — one candidate match of the bibliography marker
regexes `r'\bReferences\b'` etc. -/
def isWordAt (text : List Char) (p : Nat) : Bool :=
  match text.get? p with
  | some c => isWordCh c
  | none => false

/-- Python `\b`: the word-ness of the text changes at offset `p`. -/
def boundaryAt (text : List Char) (p : Nat) : Bool :=
  (match p with
   | 0 => false
   | Nat.succ q => isWordAt text q) ≠ isWordAt text p

/-- Does the marker word `kw` match at offset `p` (case-insensitively, with
word boundaries on both sides)? -/
def kwMatchAt (kw text : List Char) (p : Nat) : Bool :=
  decide (p + kw.length ≤ text.length) &&
  (List.range kw.length).all (fun i =>
    match text.get? (p + i), kw.get? i with
    | some a, some b => ciEq a b
    | _, _ => false) &&
  boundaryAt text p && boundaryAt text (p + kw.length)

/-- Non-overlapping scan for `kw` matches, as `re.finditer` performs it:
try each offset left to right, resuming after a match's end. -/
def kwScanGo (kw text : List Char) : Nat → Nat → List Nat
  | 0, _ => []
  | Nat.succ fuel, p =>
    if kwMatchAt kw text p then p :: kwScanGo kw text fuel (p + kw.length)
    else if p < text.length then kwScanGo kw text fuel (p + 1)
    else []

/-- All match starts of `re.finditer(rf'\b{kw}\b', text, re.IGNORECASE)`. -/
def kwStarts (kw text : List Char) : List Nat := kwScanGo kw text (text.length + 2) 0

/-- The five bibliography header keywords of `find_bibliography_start`. -/
def bibMarkers : List (List Char) :=
  (["References", "Bibliography", "Literature Cited", "Cited Literature",
    "Reference List"].map String.data)

/-- One marker step of `find_bibliography_start`:
`last_marker_pos = max(last_marker_pos, matches[-1].start())` when the
marker has matches (`-1` is modelled as the `Int` starting accumulator). -/
def bibFoldStep (text : List Char) (acc : Int) (kw : List Char) : Int :=
  match (kwStarts kw text).getLast? with
  | some p => max acc (Int.ofNat p)
  | none => acc

/-- `find_bibliography_start` (classify_usage.py:201): the running
`last_marker_pos` starts at `-1` (modelled as `Int`) and takes the max with
each marker's last match start; `len(text)` is returned when it is still
`-1`. -/
def find_bibliography_start (text : List Char) : Nat :=
  let last_marker_pos : Int := bibMarkers.foldl (bibFoldStep text) (-1)
  if last_marker_pos = -1 then text.length else last_marker_pos.toNat

/-- Specification-level reading of the (amended) header-keyword strategy:
the start offset of the last match of any keyword, or `len(text)` when no
keyword occurs. -/
def bibBoundarySpec (text : List Char) : Nat :=
  match ((List.range (text.length + 1)).filter
      (fun p => bibMarkers.any (fun kw => kwMatchAt kw text p))).getLast? with
  | some p => p
  | none => text.length

/-- The `patterns` dict handed to `find_citations_programmatically` by
`llm_get_citation_patterns` (`citation_style` defaulting handled by the
caller supplying the field). -/
structure CitPatterns where
  citation_style : String
  reference_number : Option (List Char)
  first_author_lastname : Option (List Char)
  cyear : Option (List Char)
deriving DecidableEq, Repr

/-- Class `[\d,\s]`. -/
def isDigitCommaSpace (c : Char) : Bool := isDigitCh c || c = ',' || isSpaceCh c

/-- The four explicit numbered search patterns of
`find_citations_programmatically`: `\[N\]`, `\(N\)`,
`\[[\d,\s]*\bN\b[\d,\s]*\]`, `\([\d,\s]*\bN\b[\d,\s]*\)` (searched without
IGNORECASE). -/
def explicitNumPats (ref : List Char) : List Re :=
  [Re.seq [Re.ch '[', Re.litL ref, Re.ch ']'],
   Re.seq [Re.ch '(', Re.litL ref, Re.ch ')'],
   Re.seq [Re.ch '[', Re.star (Re.cls isDigitCommaSpace), Re.wordB, Re.litL ref, Re.wordB,
     Re.star (Re.cls isDigitCommaSpace), Re.ch ']'],
   Re.seq [Re.ch '(', Re.star (Re.cls isDigitCommaSpace), Re.wordB, Re.litL ref, Re.wordB,
     Re.star (Re.cls isDigitCommaSpace), Re.ch ')']]

/-- Class `[)\]a-zA-Z]` (the lookbehind of the superscript patterns). -/
def isParenKetAlpha (c : Char) : Bool := c = ')' || c = ']' || isAlphaCh c

/-- The three superscript-style patterns:
`(?<=[)\]a-zA-Z])\s+N\s+[.,]`, `(?<=[)\]a-zA-Z])\s+N\s+[A-Z]`,
`(?<=[)\]a-zA-Z])\s+N(?=\s|$)`. -/
def superscriptPats (ref : List Char) : List Re :=
  [Re.seq [Re.lookB isParenKetAlpha, wsp1, Re.litL ref, wsp1,
     Re.cls (fun c => c = '.' || c = ',')],
   Re.seq [Re.lookB isParenKetAlpha, wsp1, Re.litL ref, wsp1,
     Re.cls (fun c => c.isUpper && c.toNat < 128)],
   Re.seq [Re.lookB isParenKetAlpha, wsp1, Re.litL ref,
     Re.lookA (Re.alt (Re.cls isSpaceCh) Re.dollar)]]

/-- `r'\[(\d+)-(\d+)\]'`. -/
def bracketRangeRe : Re :=
  Re.seq [Re.ch '[', Re.grp 1 digits1, Re.ch '-', Re.grp 2 digits1, Re.ch ']']

/-- `r'\((\d+)-(\d+)\)'`. -/
def parenRangeRe : Re :=
  Re.seq [Re.ch '(', Re.grp 1 digits1, Re.ch '-', Re.grp 2 digits1, Re.ch ')']

/-- `r'(?:figure|table|fig\.|tab\.)\s*' + ref_num`, searched with `re.I`
over the ±30-character context of a candidate. -/
def figTabRe (ref : List Char) : Re :=
  Re.seq [Re.alts [Re.litCI "figure", Re.litCI "table", Re.litCI "fig.", Re.litCI "tab."],
    wsp0, Re.litL ref]

/-- The six author-year patterns of `find_citations_programmatically`
(searched with IGNORECASE). -/
def authorStylePats (fa y : List Char) : List Re :=
  [Re.seq [Re.ch '(', Re.litCIL fa, wsp1, Re.litCI "et", wsp1, Re.litCI "al.",
     Re.opt (Re.ch ','), wsp0, Re.litCIL y, Re.ch ')'],
   Re.seq [Re.litCIL fa, wsp1, Re.litCI "et", wsp1, Re.litCI "al.", wsp0,
     Re.ch '(', Re.litCIL y, Re.ch ')'],
   Re.seq [Re.ch '(', Re.litCIL fa, wsp1, Re.litCI "and", wsp1,
     Re.rep 1 none (Re.cls isWordCh), Re.opt (Re.ch ','), wsp0, Re.litCIL y, Re.ch ')'],
   Re.seq [Re.litCIL fa, wsp1, Re.litCI "and", wsp1, Re.rep 1 none (Re.cls isWordCh),
     wsp0, Re.ch '(', Re.litCIL y, Re.ch ')'],
   Re.seq [Re.ch '(', Re.litCIL fa, Re.opt (Re.ch ','), wsp0, Re.litCIL y, Re.ch ')'],
   Re.seq [Re.litCIL fa, wsp0, Re.ch '(', Re.litCIL y, Re.ch ')']]

/-- `find_citations_programmatically` (classify_usage.py:470): search the
pre-bibliography body for the reference's citation patterns, with the
figure/table context filter applied to the explicit and superscript
patterns (but not to the bracket/paren range patterns), then deduplicate
(`sorted(set(matches), key=...)`, modelled as first-occurrence dedup
followed by a stable sort on the start offset). -/
def find_citations_programmatically (text : List Char) (pats : CitPatterns)
    (bib_start : Nat) : List (Nat × Nat × List Char) :=
  let body_text := text.take bib_start
  let ms :=
    if pats.citation_style = "numbered" || pats.citation_style = "superscript" then
      match pats.reference_number with
      | none => []
      | some ref =>
        if ref.isEmpty then []
        else
          let refN := parseNat ref
          let rangeHits := fun (re : Re) =>
            (Re.finditer re body_text).flatMap (fun m =>
              match refN with
              | some rn =>
                if natOfDigits (m.groupTxt body_text 1) ≤ rn &&
                    rn ≤ natOfDigits (m.groupTxt body_text 2) then
                  [(m.mstart, m.mend, m.matchedTxt body_text)]
                else []
              | none => [])
          let searchHits := (explicitNumPats ref ++ superscriptPats ref).flatMap (fun p =>
            (Re.finditer p body_text).flatMap (fun m =>
              let context := pySlice body_text (m.mstart - 30) (m.mend + 30)
              if (Re.rsearch (figTabRe ref) context).isSome then []
              else [(m.mstart, m.mend, m.matchedTxt body_text)]))
          rangeHits bracketRangeRe ++ rangeHits parenRangeRe ++ searchHits
    else if pats.citation_style = "author-year" then
      match pats.first_author_lastname, pats.cyear with
      | some fa, some y =>
        if fa.isEmpty || y.isEmpty then []
        else (authorStylePats fa y).flatMap (fun p =>
          (Re.finditer p body_text).map (fun m => (m.mstart, m.mend, m.matchedTxt body_text)))
      | _, _ => []
    else []
  pysortBy (fun a b => a.1 ≤ b.1) (pydedup ms)

/-! ## Specification-side definitions and concrete example inputs -/

/-- Specification-level reading of the DOI-density strategy (claim C5):
scan the 4-wide sliding windows in order and return the first qualifying
window's first DOI offset, where a window at index `i` qualifies when it
spans under 1000 characters and either fewer than 10 further DOIs remain
after its first DOI or the span to the 10th-next DOI is under 5000. -/
def refSectionSpec (text : List Char) : Nat :=
  let ps := (Re.finditer doiPrefixRe text).map (fun m => m.mstart)
  if ps.length < 4 then text.length
  else
    match (List.range (ps.length - 3)).find? (fun i =>
        decide (ps.getD (i + 3) 0 - ps.getD i 0 < 1000 ∧
          (ps.length ≤ i + 10 ∨ ps.getD (i + 10) 0 - ps.getD i 0 < 5000))) with
    | some i => ps.getD i 0
    | none => text.length

/-- No proper border of `kw` agrees with `kw` case-insensitively: for every
shift `d` with `1 ≤ d < len`, some position of the overlap disagrees.  This
rules out overlapping matches of the keyword, so the non-overlapping
`finditer` scan sees every match (checked by `decide` for the five
bibliography keywords). -/
def kwNoBorder (kw : List Char) : Bool :=
  (List.range kw.length).all (fun d =>
    decide (d = 0) ||
    !((List.range (kw.length - d)).all (fun i =>
      match kw.get? i, kw.get? (d + i) with
      | some a, some b => ciEq a b
      | _, _ => false)))

/-- C2's `patterns` argument: a numbered-style paper whose target reference
number is 5. -/
def c2NumPats : CitPatterns :=
  { citation_style := "numbered", reference_number := some ("5".data),
    first_author_lastname := none, cyear := none }

/-- C6 chain text: three `DANDI:000130` mentions at offsets 0, 160 and 320;
adjacent mentions are within the 200-character threshold but the first and
last are 308 characters apart. -/
def c6chainText : List Char :=
  ("DANDI:000130 " ++ String.mk (List.replicate 145 'x') ++ "  DANDI:000130 " ++
   String.mk (List.replicate 145 'y') ++ "  DANDI:000130").data

/-- C6 positive text: two mentions of dataset 000130 whose spans are 50
characters apart (spans (0,12) and (62,77)). -/
def c6nearText : List Char :=
  ("DANDI:000130" ++ String.mk (List.replicate 50 'x') ++ "dandiset 000130").data

/-- C6 different-id text: two different dataset ids close together. -/
def c6diffText : List Char := "DANDI:000001 x DANDI:000002".data

/-- C6 far text: two mentions of the same id 201 characters apart (beyond
the 200-character threshold, with no intermediate mention). -/
def c6farText : List Char :=
  ("DANDI:000130" ++ String.mk (List.replicate 201 'x') ++ "DANDI:000130").data

/-- C10 precedence text: the same dataset id in DOI form (pattern-table
entry 1) and URL form (entry 2). -/
def c10Text : List Char := "10.48324/dandi.000130 see dandiarchive.org/dandiset/000130".data

/-- C4 text: a numbered citation `[2]` at offset 1, an author-year citation
`(Smith, 2020)` at offset 110 (bucket 1), and a reference entry resolving
DOI `10.1/x` to reference number 2. -/
def c4Text : List Char :=
  ("a[2] " ++ String.join (List.replicate 21 "word ") ++ "(Smith, 2020) done.\n2. Doe. 10.1/x").data

/-- C4 metadata for the cited paper (title empty, so the title pass is
skipped, exactly as `if metadata['title']:` does). -/
def c4Meta : PaperMeta := { authors := [("Smith".data)], myear := 2020, title := [] }

/-- C4 survival text: like `c4Text` but with a two-letter word before the
numbered citation, so `[2]` sits at raw offset 2 and no longer collides
with the author-year bucket 1 (matches at offsets 111 and 112). -/
def c4KeepText : List Char :=
  ("ab[2] " ++ String.join (List.replicate 21 "word ") ++ "(Smith, 2020) done.\n2. Doe. 10.1/x").data

/-- Spec-side reading (claim C4 wording) of one dedup pass: `p` has no
earlier eligible rival when every preceding candidate is either filtered
out by `skip` or carries a different key. -/
def noPriorEligible (skip : Nat → Bool) (key : Nat → Nat) (pre : List Nat) (p : Nat) : Bool :=
  pre.all (fun q => skip q || decide (key q ≠ key p))

/-- Spec-side dedup (claim C4 wording), with `pre` accumulating the already
inspected candidates: a candidate survives iff it is not skipped, its key
is not among the initially recorded keys `seen0`, and it is the first
eligible occurrence of its key — every later candidate falling on an
already-seen key is dropped, all other candidates surviving. -/
def dedupSpecGo (skip : Nat → Bool) (key : Nat → Nat) (seen0 : List Nat) :
    List Nat → List Nat → List Nat
  | [], _ => []
  | p :: ps, pre =>
    if !skip p && !(seen0.contains (key p) : Bool) && noPriorEligible skip key pre p then
      p :: dedupSpecGo skip key seen0 ps (pre ++ [p])
    else dedupSpecGo skip key seen0 ps (pre ++ [p])

/-- Spec-side dedup of a full candidate list against initially recorded
keys `seen0`. -/
def dedupSpec (skip : Nat → Bool) (key : Nat → Nat) (seen0 ps : List Nat) : List Nat :=
  dedupSpecGo skip key seen0 ps []

/-- The raw numbered-citation candidates considered by
`find_citation_contexts` (none when the DOI resolves to no reference
number, or to the falsy number 0). -/
def c4RawNumbered (text doi : List Char) : List Nat :=
  match find_reference_number_for_doi text doi with
  | some n => if n = 0 then [] else find_numbered_citations text n
  | none => []

/-- The raw author-year candidates considered by `find_citation_contexts`
(none when the metadata lacks authors or a year). -/
def c4RawAuthor (text : List Char) (md : PaperMeta) : List Nat :=
  if !md.authors.isEmpty && md.myear ≠ 0 then
    find_author_citations text md.authors md.myear 1
  else []

/-- The raw title-mention candidates considered by `find_citation_contexts`
(none when the metadata title is empty). -/
def c4RawTitle (text : List Char) (md : PaperMeta) : List Nat :=
  if !md.title.isEmpty then find_title_mentions text md.title else []

/-- Claim-side survivors of the numbered pass: dedup by exact raw start
offset (identity key), starting from an empty recorded-key set. -/
def c4KeptNumbered (text doi : List Char) (excl : Bool) : List Nat :=
  dedupSpec (fun pos => excl && is_in_reference_section text pos) (fun p => p)
    [] (c4RawNumbered text doi)

/-- Claim-side survivors of the author-year pass: dedup by `start / 100`
bucket, with the kept numbered raw offsets already recorded (the shared
`seen_positions` set). -/
def c4KeptAuthor (text doi : List Char) (md : PaperMeta) (excl : Bool) : List Nat :=
  dedupSpec (fun pos => excl && is_in_reference_section text pos) (fun p => p / 100)
    (c4KeptNumbered text doi excl) (c4RawAuthor text md)

/-- Claim-side survivors of the title pass: dedup by `start / 100` bucket,
with the kept numbered offsets and the kept author-year buckets already
recorded. -/
def c4KeptTitle (text doi : List Char) (md : PaperMeta) (excl : Bool) : List Nat :=
  dedupSpec (fun pos => excl && is_in_reference_section text pos) (fun p => p / 100)
    (c4KeptNumbered text doi excl ++ (c4KeptAuthor text doi md excl).map (fun p => p / 100))
    (c4RawTitle text md)

/-! ## Claim theorems -/

set_option maxRecDepth 100000

/-- Claim C1, counterexample: on the text `"recorded at 10-20 kHz"` itself,
`find_numbered_citations` with N = 10 does report a position inside the
phrase — position 10, the `'t'` of `"at"`, found by the space-separated
superscript pattern `[a-zA-Z]\s+10(?:\s*[,–-]\s*\d+)*(?:\s|$|[,.])`, which
carries no unit deny-list.  This refutes "reports no position inside that
phrase ... for every N with 10 <= N <= 20". -/
theorem C1_counterexample :
    find_numbered_citations ("recorded at 10-20 kHz".data) 10 = [10] ∧
    10 < ("recorded at 10-20 kHz".data).length :=
  And.intro (by decide) (by decide)

/-- Claim C1 as amended: the deny-list guard keeps every N in [11, 20] out
of `"recorded at 10-20 kHz"`, but for N = 10 the space-separated
superscript pattern (which has no deny-list) matches `"at 10-20 "` and
reports position 10; on `"reported in studies 10-20"` the dashed-range
position 20 is reported for every N in [10, 20]. -/
theorem C1_amended :
    (∀ n ∈ Finset.Icc 11 20, find_numbered_citations ("recorded at 10-20 kHz".data) n = []) ∧
    find_numbered_citations ("recorded at 10-20 kHz".data) 10 = [10] ∧
    (∀ n ∈ Finset.Icc 10 20, 20 ∈ find_numbered_citations ("reported in studies 10-20".data) n) :=
  And.intro (by decide) (And.intro (by decide) (by decide))

/-- Witness for C1_amended at N = 15 (first part) and N = 12 (last part). -/
theorem C1_amended_witness :
    find_numbered_citations ("recorded at 10-20 kHz".data) 15 = [] ∧
    20 ∈ find_numbered_citations ("reported in studies 10-20".data) 12 :=
  And.intro (C1_amended.1 15 (by decide)) (C1_amended.2.2 12 (by decide))

/-- Claim C2, counterexample: `find_numbered_citations` applies no
figure/table exclusion at all.  On `"in Figure 5 , 6 x"` with N = 5, the
space-separated superscript candidate at position 8 (span [8,16)) is kept,
even though the ±30-character context around it matches the
figure/table-followed-by-N regex.  This refutes "every numbered-citation
candidate ... in both numbered matchers ... is discarded". -/
theorem C2_counterexample :
    find_numbered_citations ("in Figure 5 , 6 x".data) 5 = [8] ∧
    (Re.rsearch (figTabRe ("5".data)) (pySlice ("in Figure 5 , 6 x".data) (8 - 30) (16 + 30))).isSome = true :=
  And.intro (by decide) (by decide)

/-- Claim C2 as amended: in `find_citations_programmatically` the
figure/table context filter discards the explicit and superscript-pattern
candidates (first conjunct: all candidates of `"in Figure 5 , panel"` are
dropped), but bracket/parenthesis *range* candidates bypass the filter
(second conjunct: `"[4-6]"` survives although its context matches
`figure\s*5`, third conjunct), and `find_numbered_citations` applies no
such filter at all (fourth conjunct). -/
theorem C2_amended :
    find_citations_programmatically ("in Figure 5 , panel".data) c2NumPats
      (("in Figure 5 , panel".data).length) = [] ∧
    find_citations_programmatically ("[4-6] in Figure 5 x".data) c2NumPats
      (("[4-6] in Figure 5 x".data).length) = [(0, 5, ("[4-6]".data))] ∧
    (Re.rsearch (figTabRe ("5".data)) (pySlice ("[4-6] in Figure 5 x".data) (0 - 30) (5 + 30))).isSome = true ∧
    find_numbered_citations ("on Figure 7 , 8 y".data) 7 = [8] :=
  And.intro (by decide) (And.intro (by decide) (And.intro (by decide) (by decide)))

/-- Claim C6, counterexample: merging is transitive through intermediate
mentions.  In `c6chainText` the `DANDI:000130` mentions have spans (0,12),
(160,172) and (320,332) (second conjunct); the first and third lie 308 > 200
characters apart, yet the result is a single merged match spanning (0,332)
(first conjunct), refuting "matches ... farther apart than the threshold
are never merged". -/
theorem C6_counterexample :
    (find_dandi_mentions_with_positions c6chainText).map (fun m => (m.mstart, m.mend, m.mid)) =
      [(0, 332, ("000130".data))] ∧
    (Re.finditer (Re.seq [Re.litCI "DANDI:", wsp0, grp6d]) c6chainText).map
        (fun m => (m.mstart, m.mend)) = [(0, 12), (160, 172), (320, 332)] :=
  And.intro (by decide) (by decide)

/-- Claim C6 as amended: two same-id matches 50 characters apart merge into
one match with the unioned span and both distinct matched substrings;
matches with different ids never merge; two same-id matches farther apart
than the threshold with no intermediate mention stay separate (merging
beyond the threshold only happens transitively, as the counterexample
shows). -/
theorem C6_amended :
    (find_dandi_mentions_with_positions c6nearText).map
        (fun m => (m.mstart, m.mend, m.mid, m.matched_strings)) =
      [(0, 77, ("000130".data), some [("DANDI:000130".data), ("dandiset 000130".data)])] ∧
    (find_dandi_mentions_with_positions c6diffText).map (fun m => (m.mstart, m.mend, m.mid)) =
      [(0, 12, ("000001".data)), (15, 27, ("000002".data))] ∧
    (find_dandi_mentions_with_positions c6farText).map (fun m => (m.mstart, m.mend, m.mid)) =
      [(0, 12, ("000130".data)), (213, 225, ("000130".data))] :=
  And.intro (by decide) (And.intro (by decide) (by decide))

/-- Claim C4, counterexample: the `seen_positions` set is shared between
the numbered pass (which inserts raw offsets) and the author-year/title
passes (which insert `start / 100` buckets).  In `c4Text` the numbered
citation `[2]` is kept at raw offset 1; the author-year matches at offsets
110 and 111 (the first matches in their bucket, 110 / 100 = 1) are then
dropped because their bucket collides with the numbered match's raw
offset — refuting "all other matches surviving". -/
theorem C4_counterexample :
    (find_citation_contexts c4Text (some c4Meta) ("10.1/x".data) 500 false).map
        (fun c => (c.method, c.citation_position)) = [("numbered_citation", 1)] ∧
    find_author_citations c4Text [("Smith".data)] 2020 1 = [110, 111] ∧
    find_numbered_citations c4Text 2 = [1] ∧
    (110 : Nat) / 100 = 1 :=
  And.intro (by decide) (And.intro (by decide) (And.intro (by decide) (by decide)))

/-- The candidate-year list built by `find_author_citations` contains
exactly the strings of `{year} ∪ {year ± k : 1 ≤ k ≤ tol}`. -/
theorem yearsToSearch_mem (y : Int) (t : Nat) (s : List Char) :
    s ∈ yearsToSearch y t ↔
      ∃ k : Nat, k ≤ t ∧
        (s = (toString (y - (k : Int))).data ∨ s = (toString (y + (k : Int))).data) := by
  simp only [yearsToSearch, List.mem_cons, List.mem_flatMap, List.mem_range]
  constructor
  · rintro (h | ⟨d, hd, hmem⟩)
    · refine ⟨0, Nat.zero_le _, Or.inl ?_⟩
      simpa using h
    · simp only [List.mem_cons, List.not_mem_nil, or_false] at hmem
      refine ⟨d + 1, by omega, ?_⟩
      have hcast : ((d : Int) + 1) = ((d + 1 : Nat) : Int) := by push_cast; ring
      rcases hmem with h | h
      · exact Or.inl (by rw [h, hcast])
      · exact Or.inr (by rw [h, hcast])
  · rintro ⟨k, hk, hor⟩
    cases k with
    | zero =>
      left
      rcases hor with h | h
      · simpa using h
      · simpa using h
    | succ j =>
      right
      refine ⟨j, by omega, ?_⟩
      simp only [List.mem_cons, List.not_mem_nil, or_false]
      have hcast : ((j : Int) + 1) = ((j + 1 : Nat) : Int) := by push_cast; ring
      rcases hor with h | h
      · exact Or.inl (by rw [h, hcast])
      · exact Or.inr (by rw [h, hcast])

/-- Claim C7: with authors `["Smith"]`, year 2020 and tolerance 1,
`find_author_citations` reports a position for `(Smith, 2019)`,
`(Smith, 2020)` and `(Smith, 2021)` and none for a text whose only Smith
citation is `(Smith, 2022)`; and in general the candidate years searched
are exactly `{year} ∪ {year ± k : k = 1..tol}`. -/
theorem C7_year_tolerance :
    (4 ∈ find_author_citations ("see (Smith, 2019) ok".data) [("Smith".data)] 2020 1) ∧
    (4 ∈ find_author_citations ("see (Smith, 2020) ok".data) [("Smith".data)] 2020 1) ∧
    (4 ∈ find_author_citations ("see (Smith, 2021) ok".data) [("Smith".data)] 2020 1) ∧
    find_author_citations ("see (Smith, 2022) ok".data) [("Smith".data)] 2020 1 = [] ∧
    (∀ (y : Int) (t : Nat) (s : List Char),
      s ∈ yearsToSearch y t ↔
        ∃ k : Nat, k ≤ t ∧
          (s = (toString (y - (k : Int))).data ∨ s = (toString (y + (k : Int))).data)) :=
  And.intro (by decide) (And.intro (by decide) (And.intro (by decide)
    (And.intro (by decide) yearsToSearch_mem)))

/-- Soundness of the case-insensitive literal search: a hit means the
pattern occurs at the reported offset. -/
theorem searchCIGo_some (pat : List Char) :
    ∀ (l : List Char) (i j : Nat), searchCIGo pat l i = some j →
      i ≤ j ∧ j - i ≤ l.length ∧ startsWithCI (l.drop (j - i)) pat = true := by
  intro l
  induction l with
  | nil =>
    intro i j h
    simp only [searchCIGo] at h
    split at h
    · rename_i hs
      cases h
      exact ⟨Nat.le_refl _, by simp, by simpa using hs⟩
    · cases h
  | cons t ts ih =>
    intro i j h
    simp only [searchCIGo] at h
    split at h
    · rename_i hs
      cases h
      exact ⟨Nat.le_refl _, by simp, by simpa using hs⟩
    · obtain ⟨h1, h2, h3⟩ := ih (i + 1) j h
      refine ⟨by omega, by simp; omega, ?_⟩
      have hk : j - i = (j - (i + 1)) + 1 := by omega
      rw [hk, List.drop_succ_cons]
      exact h3

/-- If the pattern occurs nowhere (case-insensitively), `searchCI` finds
nothing. -/
theorem searchCI_eq_none (text pat : List Char) (h : containsCI text pat = false) :
    searchCI text pat = none := by
  cases hs : searchCI text pat with
  | none => rfl
  | some j =>
    exfalso
    obtain ⟨-, h2, h3⟩ := searchCIGo_some pat text 0 j hs
    simp only [Nat.sub_zero] at h2 h3
    have : containsCI text pat = true := by
      simp only [containsCI, List.any_eq_true]
      exact ⟨j, by simp [List.mem_range]; omega, h3⟩
    rw [this] at h
    cases h

/-- Claim C8: for every text that does not contain the target DOI as a
case-insensitive substring, `find_reference_number_for_doi` returns `none`
(the initial `re.search` fails and the function short-circuits). -/
theorem C8_doi_absent (text doi : List Char) (h : containsCI text doi = false) :
    find_reference_number_for_doi text doi = none := by
  unfold find_reference_number_for_doi
  rw [searchCI_eq_none text doi h]

/-- Witness for C8 at a concrete text and DOI. -/
theorem C8_doi_absent_witness :
    containsCI ("no identifiers in this text".data) ("10.1/x".data) = false ∧
    find_reference_number_for_doi ("no identifiers in this text".data) ("10.1/x".data) = none :=
  And.intro (by decide) (C8_doi_absent _ _ (by decide))

/-- The early-return loop of `find_reference_section_start` returns the
first qualifying window at or after `i`. -/
theorem frssLoop_eq_find (n : Nat) (ps : List Nat) :
    ∀ k i, k = ps.length - 3 - i →
      frssLoop n ps i =
        match (List.range' i k).find? (fun j =>
            decide (ps.getD (j + 3) 0 - ps.getD j 0 < 1000 ∧
              (ps.length ≤ j + 10 ∨ ps.getD (j + 10) 0 - ps.getD j 0 < 5000))) with
        | some j => ps.getD j 0
        | none => n := by
  intro k
  induction k with
  | zero =>
    intro i hk
    rw [frssLoop]
    have h3 : ¬(i + 3 < ps.length) := by omega
    simp [h3, List.range']
  | succ k ih =>
    intro i hk
    rw [frssLoop]
    have h3 : i + 3 < ps.length := by omega
    rw [List.range'_succ]
    by_cases hq : ps.getD (i + 3) 0 - ps.getD i 0 < 1000 ∧
        (ps.length ≤ i + 10 ∨ ps.getD (i + 10) 0 - ps.getD i 0 < 5000)
    · rw [List.find?_cons_of_pos _ (by simpa using hq)]
      obtain ⟨h1, h2⟩ := hq
      rw [if_pos h3, if_pos h1]
      rcases Nat.lt_or_ge (i + 10) ps.length with hlt | hge
      · rw [if_pos hlt, if_pos (show ps.getD (i + 10) 0 - ps.getD i 0 < 5000 by
          rcases h2 with h | h <;> omega)]
      · rw [if_neg (by omega)]
    · rw [List.find?_cons_of_neg _ (by simpa using hq)]
      rw [if_pos h3]
      have hrec := ih (i + 1) (by omega)
      by_cases h1 : ps.getD (i + 3) 0 - ps.getD i 0 < 1000
      · rw [if_pos h1]
        have h2 : ¬(ps.length ≤ i + 10 ∨ ps.getD (i + 10) 0 - ps.getD i 0 < 5000) := by
          intro hcon
          exact hq ⟨h1, hcon⟩
        rw [if_pos (by omega), if_neg (by omega)]
        exact hrec
      · rw [if_neg h1]
        exact hrec

/-- Claim C5: `find_reference_section_start` collects all `10.NNNN/`
occurrences, returns `len(text)` when fewer than 4 exist, and otherwise
returns the first sliding window's first DOI offset exactly when that
window spans under 1000 characters and either fewer than 10 further DOIs
remain or the 10th-next DOI lies within 5000 characters — the refinement
of the loop against the claim-level first-qualifying-window description
`refSectionSpec`. -/
theorem C5_reference_section_start (text : List Char) :
    find_reference_section_start text = refSectionSpec text := by
  unfold find_reference_section_start refSectionSpec
  by_cases h4 : ((Re.finditer doiPrefixRe text).map (fun m => m.mstart)).length < 4
  · rw [if_pos h4, if_pos h4]
  · rw [if_neg h4, if_neg h4]
    rw [frssLoop_eq_find text.length ((Re.finditer doiPrefixRe text).map (fun m => m.mstart))
      (((Re.finditer doiPrefixRe text).map (fun m => m.mstart)).length - 3) 0 (by omega)]
    rw [List.range_eq_range']

/-- Every match kept by `keepFirstById` comes from the input list. -/
theorem keepFirstById_sub : ∀ (l : List AMatch) (x : AMatch), x ∈ keepFirstById l → x ∈ l := by
  intro l
  induction l using keepFirstById.induct with
  | case1 => intro x h; simp [keepFirstById] at h
  | case2 m ms ih =>
    intro x h
    rw [keepFirstById] at h
    rcases List.mem_cons.mp h with h | h
    · exact h ▸ List.mem_cons_self _ _
    · exact List.mem_cons_of_mem _ (List.mem_of_mem_filter (ih x h))

/-- The ids surviving `keepFirstById` are pairwise distinct. -/
theorem keepFirstById_nodup :
    ∀ (l : List AMatch), ((keepFirstById l).map (fun m => m.aid)).Nodup := by
  intro l
  induction l using keepFirstById.induct with
  | case1 => simp [keepFirstById]
  | case2 m ms ih =>
    rw [keepFirstById]
    simp only [List.map_cons, List.nodup_cons]
    refine ⟨?_, ih⟩
    intro hmem
    obtain ⟨y, hy, hyaid⟩ := List.mem_map.mp hmem
    have hyf := keepFirstById_sub _ y hy
    have := List.of_mem_filter hyf
    simp only [decide_eq_true_eq] at this
    exact this hyaid

/-- The `seen_ids` loop of `find_archive_ids` equals first-per-id dedup of
the not-yet-seen matches. -/
theorem faiGo_eq : ∀ (l : List AMatch) (seen : List (List Char)),
    faiGo l seen = keepFirstById (l.filter (fun x => !seen.contains x.aid)) := by
  intro l
  induction l with
  | nil => intro seen; simp [faiGo, keepFirstById]
  | cons m ms ih =>
    intro seen
    by_cases h : seen.contains m.aid
    · rw [faiGo, if_pos h, ih seen]
      rw [List.filter_cons, if_neg (by simpa using h)]
    · rw [faiGo, if_neg h, ih (m.aid :: seen)]
      rw [List.filter_cons, if_pos (by simpa using h), keepFirstById]
      congr 1
      rw [List.filter_filter]
      have hps : (fun (x : AMatch) => !(m.aid :: seen).contains x.aid) =
          (fun (a : AMatch) => decide (a.aid ≠ m.aid) && !seen.contains a.aid) := by
        funext x
        by_cases hx : x.aid = m.aid <;> simp [List.contains_cons, hx]
      rw [hps]

/-- Claim C10: `find_archive_ids` keeps at most one match per extracted
dataset id — its ids are pairwise distinct and the kept match for each id
is the first raw match in pattern-table-then-text order (`keepFirstById`);
concretely, for a text containing the same DANDI id in DOI form and URL
form, the DOI-form match (earlier in the pattern table) is the one kept. -/
theorem C10_find_archive_ids_dedup :
    (∀ (text : List Char) (archive_name : String),
      ((find_archive_ids text archive_name).map (fun m => m.aid)).Nodup ∧
      find_archive_ids text archive_name = keepFirstById (rawArchiveMatches text archive_name)) ∧
    find_archive_ids c10Text "DANDI Archive" =
      [{ aid := ("000130".data), pattern_type := "doi",
         matched_string := ("10.48324/dandi.000130".data),
         doi := some ("10.48324/dandi.000130".data) }] := by
  refine ⟨fun text archive_name => ?_, by decide⟩
  have heq : find_archive_ids text archive_name =
      keepFirstById (rawArchiveMatches text archive_name) := by
    rw [find_archive_ids, faiGo_eq]
    congr 1
    simp [List.filter_true]
  exact ⟨heq ▸ keepFirstById_nodup _, heq⟩

/-- `pySlice text a b` is no longer than `b - a`. -/
theorem pySlice_length_le (text : List Char) (a b : Nat) :
    (pySlice text a b).length ≤ b - a := by
  simp [pySlice]

/-- `pySlice text a b` is no longer than what remains after offset `a`. -/
theorem pySlice_length_le_sub (text : List Char) (a b : Nat) :
    (pySlice text a b).length ≤ text.length - a := by
  simp [pySlice]

/-- A two-character hit reported by `rfind2Go` lies two characters before
the end of the scanned region (relative to the scan origin). -/
theorem rfind2Go_bound (a b : Char) :
    ∀ (l : List Char) (i0 : Nat) (best : Option Nat),
      (∀ j, best = some j → j + 2 ≤ i0 + l.length) →
      ∀ j, rfind2Go a b l i0 best = some j → j + 2 ≤ i0 + l.length := by
  intro l
  induction l with
  | nil =>
    intro i0 best hb j h
    simp only [rfind2Go] at h
    exact hb j h
  | cons x xs ih =>
    intro i0 best hb j h
    cases xs with
    | nil =>
      simp only [rfind2Go] at h
      exact hb j h
    | cons y rest =>
      simp only [rfind2Go] at h
      have := ih (i0 + 1) _ (fun j2 hj2 => by
        split at hj2
        · cases hj2
          simp only [List.length_cons]
          omega
        · have := hb j2 hj2
          simp only [List.length_cons] at this ⊢
          omega) j h
      simp only [List.length_cons] at this ⊢
      omega

/-- Bound for `rfind2` hits. -/
theorem rfind2_bound (l : List Char) (a b : Char) (j : Nat)
    (h : rfind2 l a b = some j) : j + 2 ≤ l.length := by
  have := rfind2Go_bound a b l 0 none (by intro j2 hj2; cases hj2) j h
  omega

/-- Bound for `find2` hits. -/
theorem find2_bound :
    ∀ (l : List Char) (a b : Char) (j : Nat), find2 l a b = some j → j + 2 ≤ l.length := by
  intro l
  induction l with
  | nil => intro a b j h; simp [find2] at h
  | cons x xs ih =>
    intro a b j h
    cases xs with
    | nil => simp [find2] at h
    | cons y rest =>
      simp only [find2] at h
      split at h
      · cases h
        simp
      · obtain ⟨j2, hj2, hj2e⟩ := Option.map_eq_some'.mp h
        have := ih a b j2 hj2
        simp only [List.length_cons] at this ⊢
        omega

/-- A max of two optional values is one of them. -/
theorem omax_some (o1 o2 : Option Nat) (j : Nat) (h : omax o1 o2 = some j) :
    o1 = some j ∨ o2 = some j := by
  cases o1 with
  | none => exact Or.inr h
  | some a =>
    cases o2 with
    | none => exact Or.inl h
    | some b =>
      simp only [omax, Option.some.injEq] at h
      rcases max_choice a b with hm | hm <;> simp [← h, hm]

/-- The snapped window start never moves past the unsnapped start. -/
theorem ecSnapStart_le (text : List Char) (s : Nat) : ecSnapStart text s ≤ s := by
  unfold ecSnapStart
  dsimp only
  split
  · rename_i hs
    split
    · rename_i se hse
      have hb : se + 2 ≤ (pySlice text (s - 100) s).length := by
        rcases omax_some _ _ _ hse with h | h
        · rcases omax_some _ _ _ h with h2 | h2 <;> exact rfind2_bound _ _ _ _ h2
        · rcases omax_some _ _ _ h with h2 | h2 <;> exact rfind2_bound _ _ _ _ h2
      have hlen := pySlice_length_le text (s - 100) s
      omega
    · exact Nat.le_refl s
  · exact Nat.le_refl s

/-- The snapped window end never moves before the unsnapped end. -/
theorem ecSnapEnd_ge (text : List Char) (e : Nat) : e ≤ ecSnapEnd text e := by
  unfold ecSnapEnd
  dsimp only
  split
  · split
    · omega
    · exact Nat.le_refl e
  · exact Nat.le_refl e

/-- The snapped window end stays inside the text. -/
theorem ecSnapEnd_le (text : List Char) (e : Nat) (he : e ≤ text.length) :
    ecSnapEnd text e ≤ text.length := by
  unfold ecSnapEnd
  dsimp only
  split
  · rename_i hlt
    split
    · rename_i hne
      have mk : ∀ (a b : Char), (find2 (pySlice text e (e + 100)) a b).getD 9999 = 9999 ∨
          (find2 (pySlice text e (e + 100)) a b).getD 9999 + 2 ≤
            (pySlice text e (e + 100)).length := by
        intro a b
        cases hf : find2 (pySlice text e (e + 100)) a b with
        | none => exact Or.inl (by simp [hf])
        | some v => exact Or.inr (by simpa [hf] using find2_bound _ a b v hf)
      have hlen := pySlice_length_le_sub text e (e + 100)
      rcases mk '.' ' ' with h1 | h1 <;> rcases mk '.' '\n' with h2 | h2 <;>
        rcases mk '?' ' ' with h3 | h3 <;> rcases mk '!' ' ' with h4 | h4 <;> omega
    · exact he
  · exact he

/-- Bound for the before-the-match word loop of `extract_word_context`. -/
theorem wordSkipGo_bound (t : Nat) :
    ∀ (l : List Char) (count i0 : Nat) (prev : Option Char) (j : Nat),
      wordSkipGo t count i0 prev l = some j → j ≤ i0 + l.length := by
  intro l
  induction l with
  | nil => intro count i0 prev j h; simp [wordSkipGo] at h
  | cons c rest ih =>
    intro count i0 prev j h
    simp only [wordSkipGo] at h
    split at h
    · split at h
      · cases h
        simp only [List.length_cons]
        omega
      · have := ih _ _ _ _ h
        simp only [List.length_cons] at this ⊢
        omega
    · have := ih _ _ _ _ h
      simp only [List.length_cons] at this ⊢
      omega

/-- Bound for the after-the-match word loop of `extract_word_context`. -/
theorem wordEndGo_bound (t : Nat) :
    ∀ (l : List Char) (count i0 : Nat) (w : Bool) (j : Nat),
      wordEndGo t count i0 w l = some j → j ≤ i0 + l.length := by
  intro l
  induction l with
  | nil => intro count i0 w j h; simp [wordEndGo] at h
  | cons c rest ih =>
    intro count i0 w j h
    simp only [wordEndGo] at h
    split at h
    · have := ih _ _ _ _ h
      simp only [List.length_cons] at this ⊢
      omega
    · split at h
      · split at h
        · cases h
          simp only [List.length_cons]
          omega
        · have := ih _ _ _ _ h
          simp only [List.length_cons] at this ⊢
          omega
      · have := ih _ _ _ _ h
        simp only [List.length_cons] at this ⊢
        omega

/-- Claim C9: the character-budget extractor satisfies
`0 ≤ start ≤ anchor ≤ end ≤ len(text)` (with `anchorOffset = position`)
for every anchor inside the text and every budget, including after
sentence-boundary snapping; and the word-budget extractor brackets its
input span: `context_start ≤ start` and `end ≤ context_end`. -/
theorem C9_context_bounds :
    (∀ (text : List Char) (p cc : Nat), p ≤ text.length →
      (extract_context text p cc).cstart ≤ p ∧
      p ≤ (extract_context text p cc).cend ∧
      (extract_context text p cc).cend ≤ text.length ∧
      (extract_context text p cc).citation_position = p) ∧
    (∀ (text : List Char) (s e nw : Nat), s ≤ e → e ≤ text.length →
      (extract_word_context text s e nw).context_start ≤ s ∧
      e ≤ (extract_word_context text s e nw).context_end) := by
  constructor
  · intro text p cc hp
    refine ⟨?_, ?_, ?_, rfl⟩
    · exact Nat.le_trans (ecSnapStart_le text (p - cc)) (Nat.sub_le p cc)
    · exact Nat.le_trans (by omega) (ecSnapEnd_ge text (min text.length (p + cc)))
    · exact ecSnapEnd_le text _ (Nat.min_le_left _ _)
  · intro text s e nw hse he
    constructor
    · show (if nw < pyWordCount (text.take s) then _ else 0) ≤ s
      split
      · cases hw : wordSkipGo (pyWordCount (text.take s) - nw) 0 0 none (text.take s) with
        | none => simp [hw]
        | some v =>
          simp only [hw, Option.getD_some]
          have := wordSkipGo_bound _ _ _ _ _ _ hw
          have hlen : (text.take s).length ≤ s := by simp
          omega
      · exact Nat.zero_le s
    · show e ≤ (if nw < pyWordCount (text.drop e) then
        e + (wordEndGo nw 0 0 false (text.drop e)).getD (text.drop e).length else text.length)
      split
      · omega
      · exact he

/-- Witness for C9 at a concrete text, anchor and budgets. -/
theorem C9_context_bounds_witness :
    ((extract_context ("abc. def".data) 2 3).cstart ≤ 2 ∧
     2 ≤ (extract_context ("abc. def".data) 2 3).cend ∧
     (extract_context ("abc. def".data) 2 3).cend ≤ ("abc. def".data).length ∧
     (extract_context ("abc. def".data) 2 3).citation_position = 2) ∧
    ((extract_word_context ("abc. def".data) 1 2 0).context_start ≤ 1 ∧
     2 ≤ (extract_word_context ("abc. def".data) 1 2 0).context_end) :=
  And.intro (C9_context_bounds.1 ("abc. def".data) 2 3 (by decide))
    (C9_context_bounds.2 ("abc. def".data) 1 2 0 (by decide) (by decide))

/-- Inserting into the stable sort's accumulator is a permutation. -/
theorem pyInsert_perm (le : α → α → Bool) :
    ∀ (l : List α) (x : α), List.Perm (pyInsert le l x) (x :: l) := by
  intro l x
  induction l with
  | nil => simp [pyInsert]
  | cons y ys ih =>
    simp only [pyInsert]
    split
    · exact (ih.cons y).trans (List.Perm.swap x y ys)
    · exact List.Perm.refl _

/-- The stable sort is a permutation of its input. -/
theorem pysortBy_perm (le : α → α → Bool) (l : List α) : List.Perm (pysortBy le l) l := by
  suffices h : ∀ (acc : List α), List.Perm (List.foldl (pyInsert le) acc l) (acc ++ l) by
    simpa [pysortBy] using h []
  induction l with
  | nil => intro acc; simp
  | cons x xs ih =>
    intro acc
    simp only [List.foldl_cons]
    exact (ih (pyInsert le acc x)).trans
      (((pyInsert_perm le acc x).append_right xs).trans List.perm_middle.symm)

/-- The final `seen` set of a dedup pass is the reversed key list of the
kept positions prepended to the initial `seen` set. -/
theorem dedupPass_snd (skip : Nat → Bool) (key : Nat → Nat) :
    ∀ (ps seen : List Nat),
      (dedupPass skip key ps seen).2 = ((dedupPass skip key ps seen).1.map key).reverse ++ seen := by
  intro ps
  induction ps with
  | nil => intro seen; simp [dedupPass]
  | cons p rest ih =>
    intro seen
    rw [dedupPass]
    split
    · exact ih seen
    · split
      · exact ih seen
      · simp only [List.map_cons, List.reverse_cons, List.append_assoc, List.singleton_append]
        exact ih (key p :: seen)

/-- The keys kept by a dedup pass are fresh and pairwise distinct: appended
to the incoming `seen` set the whole key list has no duplicates. -/
theorem dedupPass_nodup (skip : Nat → Bool) (key : Nat → Nat) :
    ∀ (ps seen : List Nat), seen.Nodup →
      (((dedupPass skip key ps seen).1.map key) ++ seen).Nodup := by
  intro ps
  induction ps with
  | nil => intro seen h; simpa [dedupPass] using h
  | cons p rest ih =>
    intro seen h
    rw [dedupPass]
    split
    · exact ih seen h
    · split
      · exact ih seen h
      · rename_i hnotin hskip
        have hfresh : key p ∉ seen := by simpa using hnotin
        have hrec := ih (key p :: seen) (by simp [h, hfresh])
        simp only [List.map_cons, List.cons_append]
        exact (List.Perm.nodup_iff List.perm_middle).mp hrec

/-- Filter drops a mapped list entirely when the predicate rejects every
image. -/
theorem filter_map_none {α β : Type} (p : β → Bool) (f : α → β) (l : List α)
    (h : ∀ x, p (f x) = false) : (l.map f).filter p = [] := by
  induction l with
  | nil => rfl
  | cons x xs ih => simp [List.filter_cons, h x, ih]

/-- Filter keeps a mapped list entirely when the predicate accepts every
image. -/
theorem filter_map_all {α β : Type} (p : β → Bool) (f : α → β) (l : List α)
    (h : ∀ x, p (f x) = true) : (l.map f).filter p = l.map f := by
  induction l with
  | nil => rfl
  | cons x xs ih => simp [List.filter_cons, h x, ih]

/-- Numbered pass: kept raw offsets are pairwise distinct, and the set it
hands on is their reversal. -/
theorem fccNumbered_spec (text : List Char) (refNum : Option Nat) (skip : Nat → Bool) :
    (fccNumbered text refNum skip).2 = (fccNumbered text refNum skip).1.reverse ∧
    (fccNumbered text refNum skip).1.Nodup := by
  unfold fccNumbered
  cases refNum with
  | none => exact ⟨rfl, List.nodup_nil⟩
  | some n =>
    dsimp only
    by_cases hn : n = 0
    · rw [if_pos hn]
      exact ⟨rfl, List.nodup_nil⟩
    · rw [if_neg hn]
      constructor
      · have := dedupPass_snd skip (fun p => p) (find_numbered_citations text n) []
        simpa using this
      · have := dedupPass_nodup skip (fun p => p) (find_numbered_citations text n) [] (by simp)
        simpa using this

/-- Author pass: kept buckets are fresh relative to the incoming `seen` set
and pairwise distinct; the set it hands on is their reversal prepended. -/
theorem fccAuthor_spec (text : List Char) (md : PaperMeta) (skip : Nat → Bool)
    (seen : List Nat) (hseen : seen.Nodup) :
    (fccAuthor text md skip seen).2 =
      ((fccAuthor text md skip seen).1.map (fun p => p / 100)).reverse ++ seen ∧
    (((fccAuthor text md skip seen).1.map (fun p => p / 100)) ++ seen).Nodup := by
  unfold fccAuthor
  split
  · exact ⟨dedupPass_snd _ _ _ _, dedupPass_nodup _ _ _ _ hseen⟩
  · simpa using hseen

/-- Title pass: same invariant as the author pass. -/
theorem fccTitle_spec (text : List Char) (md : PaperMeta) (skip : Nat → Bool)
    (seen : List Nat) (hseen : seen.Nodup) :
    (fccTitle text md skip seen).2 =
      ((fccTitle text md skip seen).1.map (fun p => p / 100)).reverse ++ seen ∧
    (((fccTitle text md skip seen).1.map (fun p => p / 100)) ++ seen).Nodup := by
  unfold fccTitle
  split
  · exact ⟨dedupPass_snd _ _ _ _, dedupPass_nodup _ _ _ _ hseen⟩
  · simpa using hseen

/-- The code's dedup loop computes the spec-side dedup: with a current
`seen` set holding exactly the initially recorded keys `seen0` plus the
keys of the eligible candidates already kept from the inspected prefix
`pre`, `dedupPass` keeps exactly the candidates `dedupSpecGo` describes. -/
theorem dedupPass_eq_specGo (skip : Nat → Bool) (key : Nat → Nat) (seen0 : List Nat) :
    ∀ (ps seen pre : List Nat),
      (∀ n, seen.contains n = true ↔
        (seen0.contains n = true ∨ ∃ q ∈ pre, skip q = false ∧ key q = n)) →
      (dedupPass skip key ps seen).1 = dedupSpecGo skip key seen0 ps pre := by
  intro ps
  induction ps with
  | nil => intro seen pre h; rfl
  | cons p rest ih =>
    intro seen pre h
    rw [dedupPass, dedupSpecGo]
    by_cases hc : seen.contains (key p) = true
    · rw [if_pos hc]
      have hcond : (!skip p && !(seen0.contains (key p) : Bool) &&
          noPriorEligible skip key pre p) = false := by
        rcases (h (key p)).mp hc with h0 | ⟨q, hq, hsq, hkq⟩
        · rw [h0]; simp
        · have hnpf : noPriorEligible skip key pre p = false := by
            rcases hnp : noPriorEligible skip key pre p with _ | _
            · rfl
            · exfalso
              have hall : ∀ q ∈ pre, skip q = true ∨ key q ≠ key p := by
                simpa only [noPriorEligible, List.all_eq_true, Bool.or_eq_true,
                  decide_eq_true_eq] using hnp
              rcases hall q hq with h1 | h1
              · rw [hsq] at h1; exact Bool.false_ne_true h1
              · exact h1 hkq
          rw [hnpf, Bool.and_false]
      rw [hcond, if_neg (by simp)]
      refine ih seen (pre ++ [p]) ?_
      intro n
      rw [h n]
      constructor
      · rintro (h0 | ⟨q, hq, hsq, hkq⟩)
        · exact Or.inl h0
        · exact Or.inr ⟨q, List.mem_append_left _ hq, hsq, hkq⟩
      · rintro (h0 | ⟨q, hq, hsq, hkq⟩)
        · exact Or.inl h0
        · rcases List.mem_append.mp hq with hq | hq
          · exact Or.inr ⟨q, hq, hsq, hkq⟩
          · rcases List.mem_singleton.mp hq with rfl
            subst hkq
            exact ((h (key q)).mp hc)
    · rw [if_neg hc]
      by_cases hs : skip p = true
      · rw [if_pos hs]
        have hcond : (!skip p && !(seen0.contains (key p) : Bool) &&
            noPriorEligible skip key pre p) = false := by rw [hs]; rfl
        rw [hcond, if_neg (by simp)]
        refine ih seen (pre ++ [p]) ?_
        intro n
        rw [h n]
        constructor
        · rintro (h0 | ⟨q, hq, hsq, hkq⟩)
          · exact Or.inl h0
          · exact Or.inr ⟨q, List.mem_append_left _ hq, hsq, hkq⟩
        · rintro (h0 | ⟨q, hq, hsq, hkq⟩)
          · exact Or.inl h0
          · rcases List.mem_append.mp hq with hq | hq
            · exact Or.inr ⟨q, hq, hsq, hkq⟩
            · rcases List.mem_singleton.mp hq with rfl
              exact absurd hs (by simp [hsq])
      · rw [if_neg hs]
        have hns : skip p = false := by simpa using hs
        have h0 : seen0.contains (key p) = false := by
          rcases hb : seen0.contains (key p) with _ | _
          · rfl
          · exact absurd ((h (key p)).mpr (Or.inl hb)) hc
        have hel : noPriorEligible skip key pre p = true := by
          simp only [noPriorEligible, List.all_eq_true, Bool.or_eq_true, decide_eq_true_eq]
          intro q hq
          by_cases hsq : skip q = true
          · exact Or.inl hsq
          · refine Or.inr (fun hkq => ?_)
            exact hc ((h (key p)).mpr (Or.inr ⟨q, hq, by simpa using hsq, hkq⟩))
        rw [show (!skip p && !(seen0.contains (key p) : Bool) &&
            noPriorEligible skip key pre p) = true by rw [hns, h0, hel]; rfl]
        rw [if_pos rfl]
        dsimp only
        refine congrArg (p :: ·) (ih (key p :: seen) (pre ++ [p]) ?_)
        intro n
        rw [List.contains_cons]
        constructor
        · intro hx
          rcases Bool.or_eq_true .. |>.mp hx with hx | hx
          · have hxe : n = key p := by simpa using hx
            exact Or.inr ⟨p, List.mem_append_right _ (List.mem_singleton_self p), hns, hxe.symm⟩
          · rcases (h n).mp hx with h1 | ⟨q, hq, hsq, hkq⟩
            · exact Or.inl h1
            · exact Or.inr ⟨q, List.mem_append_left _ hq, hsq, hkq⟩
        · rintro (h1 | ⟨q, hq, hsq, hkq⟩)
          · exact Bool.or_eq_true .. |>.mpr (Or.inr ((h n).mpr (Or.inl h1)))
          · rcases List.mem_append.mp hq with hq | hq
            · exact Bool.or_eq_true .. |>.mpr (Or.inr ((h n).mpr (Or.inr ⟨q, hq, hsq, hkq⟩)))
            · rcases List.mem_singleton.mp hq with rfl
              exact Bool.or_eq_true .. |>.mpr (Or.inl (by simp [hkq]))

/-- Corollary: started from any `seen` set membership-equal to `seen0`, the
code's dedup loop keeps exactly the spec-side survivors. -/
theorem dedupPass_fst_eq (skip : Nat → Bool) (key : Nat → Nat) (seen seen0 ps : List Nat)
    (h : ∀ n, seen.contains n = true ↔ seen0.contains n = true) :
    (dedupPass skip key ps seen).1 = dedupSpec skip key seen0 ps :=
  dedupPass_eq_specGo skip key seen0 ps seen [] (by intro n; simpa using h n)

/-- The numbered pass of `find_citation_contexts` keeps exactly the
claim-side survivors `c4KeptNumbered`. -/
theorem fccNumbered_fst_eq (text doi : List Char) (excl : Bool) :
    (fccNumbered text (find_reference_number_for_doi text doi)
      (fun pos => excl && is_in_reference_section text pos)).1 =
    c4KeptNumbered text doi excl := by
  unfold fccNumbered c4KeptNumbered c4RawNumbered
  cases find_reference_number_for_doi text doi with
  | none => rfl
  | some n =>
    dsimp only
    by_cases hn : n = 0
    · rw [if_pos hn, if_pos hn]; rfl
    · rw [if_neg hn, if_neg hn]
      exact dedupPass_fst_eq _ _ _ _ _ (fun m => Iff.rfl)

/-- The author-year pass, fed the numbered pass's final `seen` set, keeps
exactly the claim-side survivors `c4KeptAuthor`. -/
theorem fccAuthor_fst_eq (text doi : List Char) (md : PaperMeta) (excl : Bool) :
    (fccAuthor text md (fun pos => excl && is_in_reference_section text pos)
      (fccNumbered text (find_reference_number_for_doi text doi)
        (fun pos => excl && is_in_reference_section text pos)).2).1 =
    c4KeptAuthor text doi md excl := by
  have hrev : (fccNumbered text (find_reference_number_for_doi text doi)
      (fun pos => excl && is_in_reference_section text pos)).2 =
      (c4KeptNumbered text doi excl).reverse := by
    rw [(fccNumbered_spec text (find_reference_number_for_doi text doi)
      (fun pos => excl && is_in_reference_section text pos)).1,
      fccNumbered_fst_eq text doi excl]
  unfold fccAuthor c4KeptAuthor c4RawAuthor
  by_cases hg : (!md.authors.isEmpty && decide (md.myear ≠ 0)) = true
  · rw [if_pos hg, if_pos hg]
    refine dedupPass_fst_eq _ _ _ _ _ ?_
    intro n
    rw [hrev]
    simp
  · rw [if_neg hg, if_neg hg]; rfl

/-- The title pass, fed the author pass's final `seen` set, keeps exactly
the claim-side survivors `c4KeptTitle`. -/
theorem fccTitle_fst_eq (text doi : List Char) (md : PaperMeta) (excl : Bool) :
    (fccTitle text md (fun pos => excl && is_in_reference_section text pos)
      (fccAuthor text md (fun pos => excl && is_in_reference_section text pos)
        (fccNumbered text (find_reference_number_for_doi text doi)
          (fun pos => excl && is_in_reference_section text pos)).2).2).1 =
    c4KeptTitle text doi md excl := by
  have hs1 := fccNumbered_spec text (find_reference_number_for_doi text doi)
    (fun pos => excl && is_in_reference_section text pos)
  have hseen1 : (fccNumbered text (find_reference_number_for_doi text doi)
      (fun pos => excl && is_in_reference_section text pos)).2.Nodup := by
    rw [hs1.1]
    exact List.nodup_reverse.mpr hs1.2
  have hs2 := fccAuthor_spec text md (fun pos => excl && is_in_reference_section text pos)
    (fccNumbered text (find_reference_number_for_doi text doi)
      (fun pos => excl && is_in_reference_section text pos)).2 hseen1
  have hrev2 : (fccAuthor text md (fun pos => excl && is_in_reference_section text pos)
      (fccNumbered text (find_reference_number_for_doi text doi)
        (fun pos => excl && is_in_reference_section text pos)).2).2 =
      ((c4KeptAuthor text doi md excl).map (fun p => p / 100)).reverse ++
        (c4KeptNumbered text doi excl).reverse := by
    rw [hs2.1, fccAuthor_fst_eq text doi md excl, hs1.1, fccNumbered_fst_eq text doi excl]
  unfold fccTitle c4KeptTitle c4RawTitle
  by_cases hg : (!md.title.isEmpty) = true
  · rw [if_pos hg, if_pos hg]
    refine dedupPass_fst_eq _ _ _ _ _ ?_
    intro n
    rw [hrev2]
    constructor
    · intro hx
      rcases List.mem_append.mp (by simpa using hx : n ∈ ((c4KeptAuthor text doi md excl).map
          (fun p => p / 100)).reverse ++ (c4KeptNumbered text doi excl).reverse) with h | h
      · simp only [List.mem_reverse] at h
        simp [List.mem_append, h]
      · simp only [List.mem_reverse] at h
        simp [List.mem_append, h]
    · intro hx
      rcases List.mem_append.mp (by simpa using hx : n ∈ c4KeptNumbered text doi excl ++
          (c4KeptAuthor text doi md excl).map (fun p => p / 100)) with h | h
      · simp [List.mem_append, h]
      · simp [List.mem_append, h]
  · rw [if_neg hg, if_neg hg]; rfl

/-- Claim C4 as amended: `find_citation_contexts` deduplicates through one
shared `seen_positions` set — numbered matches by exact raw start offset,
author-year and title matches by `start / 100` bucket — keeping, in each
pass, exactly the first eligible occurrence per key whose key is not
already recorded (all other matches surviving, every later match on an
already-seen key dropped): its output is, up to the final position sort,
precisely the claim-side survivors of the three passes (first conjunct),
whose recorded keys are globally duplicate-free (second conjunct).
Concretely, on `c4KeepText` the author-year match at offset 111 (bucket 1,
not colliding with the kept numbered offset 2) survives while its
same-bucket successor at 112 is dropped (third and fourth conjuncts). -/
theorem C4_amended (text : List Char) (md : PaperMeta) (doi : List Char) (cc : Nat) (excl : Bool) :
    (find_citation_contexts text (some md) doi cc excl).Perm
      ((c4KeptNumbered text doi excl).map
          (mkCitation text cc "numbered_citation" (find_reference_number_for_doi text doi)) ++
       (c4KeptAuthor text doi md excl).map (mkCitation text cc "author_year" none) ++
       (c4KeptTitle text doi md excl).map (mkCitation text cc "title_mention" none)) ∧
    (c4KeptNumbered text doi excl ++
     (c4KeptAuthor text doi md excl).map (fun p => p / 100) ++
     (c4KeptTitle text doi md excl).map (fun p => p / 100)).Nodup ∧
    (find_citation_contexts c4KeepText (some c4Meta) ("10.1/x".data) 500 false).map
        (fun (c : Citation) => (c.method, c.citation_position)) =
      [("numbered_citation", 2), ("author_year", 111)] ∧
    find_author_citations c4KeepText [("Smith".data)] 2020 1 = [111, 112] := by
  refine And.intro ?_ (And.intro ?_ (And.intro (by decide) (by decide)))
  · simp only [find_citation_contexts]
    rw [fccNumbered_fst_eq text doi excl, fccAuthor_fst_eq text doi md excl,
      fccTitle_fst_eq text doi md excl]
    exact pysortBy_perm _ _
  · rw [← fccNumbered_fst_eq text doi excl, ← fccAuthor_fst_eq text doi md excl,
      ← fccTitle_fst_eq text doi md excl]
    set skip := fun pos => excl && is_in_reference_section text pos with hskip
    set refNum := find_reference_number_for_doi text doi with hrefNum
    set P1 := fccNumbered text refNum skip with hP1def
    set P2 := fccAuthor text md skip P1.2 with hP2def
    set P3 := fccTitle text md skip P2.2 with hP3def
    have hs1 := fccNumbered_spec text refNum skip
    rw [← hP1def] at hs1
    have hseen1 : P1.2.Nodup := by
      rw [hs1.1]
      exact List.nodup_reverse.mpr hs1.2
    have hs2 := fccAuthor_spec text md skip P1.2 hseen1
    rw [← hP2def] at hs2
    have hseen2 : P2.2.Nodup := by
      rw [hs2.1]
      refine (List.Perm.nodup_iff (List.Perm.append_right P1.2
        (List.reverse_perm _))).mpr ?_
      exact hs2.2
    have hs3 := fccTitle_spec text md skip P2.2 hseen2
    rw [← hP3def] at hs3
    have hfin := hs3.2
    rw [hs2.1, hs1.1] at hfin
    refine (List.Perm.nodup_iff ?_).mpr hfin
    refine List.Perm.trans List.perm_append_comm ?_
    refine List.Perm.append_left _ ?_
    exact List.perm_append_comm.trans
      (List.Perm.append (List.reverse_perm _).symm (List.reverse_perm _).symm)

/-- Membership form of `getLast?`. -/
theorem getLast?_mem_self : ∀ (l : List α) (a : α), l.getLast? = some a → a ∈ l
  | [], _, h => by simp at h
  | [_], _, h => by simp_all
  | _ :: y :: l, a, h => by
    rw [List.getLast?_cons_cons] at h
    exact List.mem_cons_of_mem _ (getLast?_mem_self (y :: l) a h)

/-- Pointwise reading of a keyword match: each keyword character agrees
case-insensitively with the text character under it. -/
theorem kwMatchAt_pointwise (kw text : List Char) (p : Nat)
    (h : kwMatchAt kw text p = true) :
    ∀ i, i < kw.length →
      ∃ a b, text.get? (p + i) = some a ∧ kw.get? i = some b ∧ ciEq a b = true := by
  simp only [kwMatchAt, Bool.and_eq_true, List.all_eq_true, decide_eq_true_eq] at h
  intro i hi
  have := h.1.1.2 i (List.mem_range.mpr hi)
  cases hta : text.get? (p + i) with
  | none => rw [hta] at this; cases hkb : kw.get? i with
    | none => rw [hkb] at this; simp at this
    | some b => rw [hkb] at this; simp at this
  | some a =>
    cases hkb : kw.get? i with
    | none => rw [hta, hkb] at this; simp at this
    | some b =>
      rw [hta, hkb] at this
      exact ⟨a, b, rfl, rfl, this⟩

/-- Window bound of a keyword match. -/
theorem kwMatchAt_bound (kw text : List Char) (p : Nat)
    (h : kwMatchAt kw text p = true) : p + kw.length ≤ text.length := by
  simp only [kwMatchAt, Bool.and_eq_true, decide_eq_true_eq] at h
  exact h.1.1.1

/-- Two overlapping matches of the same keyword force a case-insensitive
border at their shift. -/
theorem kwMatchAt_border (kw text : List Char) (p q : Nat)
    (hp : kwMatchAt kw text p = true) (hq : kwMatchAt kw text q = true)
    (hlt : p < q) (hover : q < p + kw.length) :
    ((List.range (kw.length - (q - p))).all (fun i =>
      match kw.get? i, kw.get? ((q - p) + i) with
      | some a, some b => ciEq a b
      | _, _ => false)) = true := by
  rw [List.all_eq_true]
  intro i hi
  rw [List.mem_range] at hi
  obtain ⟨a, b, hta, hkb, hab⟩ := kwMatchAt_pointwise kw text q hq i (by omega)
  obtain ⟨a2, b2, hta2, hkb2, hab2⟩ :=
    kwMatchAt_pointwise kw text p hp ((q - p) + i) (by omega)
  have heq : p + ((q - p) + i) = q + i := by omega
  rw [heq, hta] at hta2
  cases hta2
  rw [hkb, hkb2]
  simp only [ciEq, decide_eq_true_eq] at hab hab2 ⊢
  exact hab.symm.trans hab2

/-- Every position reported by the keyword scan is a match. -/
theorem kwScanGo_sound (kw text : List Char) :
    ∀ (fuel p q : Nat), q ∈ kwScanGo kw text fuel p → kwMatchAt kw text q = true := by
  intro fuel
  induction fuel with
  | zero => intro p q h; simp [kwScanGo] at h
  | succ f ih =>
    intro p q h
    rw [kwScanGo] at h
    by_cases hm : kwMatchAt kw text p = true
    · rw [if_pos hm] at h
      rcases List.mem_cons.mp h with rfl | h2
      · exact hm
      · exact ih _ _ h2
    · rw [if_neg hm] at h
      by_cases hp : p < text.length
      · rw [if_pos hp] at h
        exact ih _ _ h
      · rw [if_neg hp] at h
        simp at h

/-- The keyword scan only reports positions at or after its cursor. -/
theorem kwScanGo_lb (kw text : List Char) :
    ∀ (fuel p q : Nat), q ∈ kwScanGo kw text fuel p → p ≤ q := by
  intro fuel
  induction fuel with
  | zero => intro p q h; simp [kwScanGo] at h
  | succ f ih =>
    intro p q h
    rw [kwScanGo] at h
    by_cases hm : kwMatchAt kw text p = true
    · rw [if_pos hm] at h
      rcases List.mem_cons.mp h with rfl | h2
      · exact Nat.le_refl q
      · have := ih _ _ h2
        omega
    · rw [if_neg hm] at h
      by_cases hp : p < text.length
      · rw [if_pos hp] at h
        have := ih _ _ h
        omega
      · rw [if_neg hp] at h
        simp at h

/-- For a border-free keyword, the non-overlapping scan misses no match at
or after its cursor. -/
theorem kwScanGo_complete (kw text : List Char) (hnb : kwNoBorder kw = true)
    (hne : kw.length ≠ 0) :
    ∀ (fuel p : Nat), text.length + 1 ≤ p + fuel →
      ∀ q, p ≤ q → kwMatchAt kw text q = true → q ∈ kwScanGo kw text fuel p := by
  intro fuel
  induction fuel with
  | zero =>
    intro p hf q hpq hq
    have := kwMatchAt_bound kw text q hq
    omega
  | succ f ih =>
    intro p hf q hpq hq
    rw [kwScanGo]
    by_cases hm : kwMatchAt kw text p = true
    · rw [if_pos hm]
      rcases Nat.eq_or_lt_of_le hpq with rfl | hlt
      · exact List.mem_cons_self _ _
      · by_cases hover : q < p + kw.length
        · exfalso
          have hb := kwMatchAt_border kw text p q hm hq hlt hover
          simp only [kwNoBorder, List.all_eq_true] at hnb
          have hd := hnb (q - p) (List.mem_range.mpr (by omega))
          rcases (Bool.or_eq_true _ _).mp hd with hz | hz
          · simp only [decide_eq_true_eq] at hz
            omega
          · rw [hb] at hz
            simp at hz
        · exact List.mem_cons_of_mem _ (ih (p + kw.length) (by omega) q (by omega) hq)
    · rw [if_neg hm]
      by_cases hp : p < text.length
      · rw [if_pos hp]
        have hne2 : p ≠ q := by
          intro hc
          rw [hc] at hm
          exact hm hq
        exact ih (p + 1) (by omega) q (by omega) hq
      · rw [if_neg hp]
        exfalso
        have := kwMatchAt_bound kw text q hq
        omega

/-- The last element of the keyword scan bounds every element. -/
theorem kwScanGo_last_ge (kw text : List Char) :
    ∀ (fuel p r : Nat), (kwScanGo kw text fuel p).getLast? = some r →
      ∀ q ∈ kwScanGo kw text fuel p, q ≤ r := by
  intro fuel
  induction fuel with
  | zero => intro p r h; simp [kwScanGo] at h
  | succ f ih =>
    intro p r h q hq
    rw [kwScanGo] at h hq
    by_cases hm : kwMatchAt kw text p = true
    · rw [if_pos hm] at h hq
      cases hrest : kwScanGo kw text f (p + kw.length) with
      | nil =>
        rw [hrest] at h hq
        simp only [List.getLast?_singleton, Option.some.injEq] at h
        rcases List.mem_cons.mp hq with rfl | h2
        · omega
        · simp at h2
      | cons a as =>
        rw [hrest] at h hq
        rw [List.getLast?_cons_cons] at h
        have hlast : (kwScanGo kw text f (p + kw.length)).getLast? = some r := by
          rw [hrest]
          exact h
        rcases List.mem_cons.mp hq with rfl | h2
        · have hrmem : r ∈ kwScanGo kw text f (q + kw.length) :=
            getLast?_mem_self _ _ hlast
          have := kwScanGo_lb kw text f (q + kw.length) r hrmem
          omega
        · exact ih (p + kw.length) r hlast q (by rw [hrest]; exact h2)
    · rw [if_neg hm] at h hq
      by_cases hp : p < text.length
      · rw [if_pos hp] at h hq
        exact ih _ _ h q hq
      · rw [if_neg hp] at h hq
        simp at h

/-- A marker step never decreases the accumulator. -/
theorem bibFoldStep_ge (text : List Char) (acc : Int) (kw : List Char) :
    acc ≤ bibFoldStep text acc kw := by
  unfold bibFoldStep
  split
  · exact le_max_left _ _
  · exact le_refl _

/-- The last element of the filtered range is the greatest accepted
position below the bound. -/
theorem rangeFilterLast_some (P : Nat → Bool) :
    ∀ (m r : Nat), ((List.range m).filter P).getLast? = some r →
      P r = true ∧ r < m ∧ ∀ q, q < m → P q = true → q ≤ r := by
  intro m
  induction m with
  | zero => intro r h; simp at h
  | succ m ih =>
    intro r h
    rw [List.range_succ, List.filter_append] at h
    by_cases hP : P m = true
    · have hsing : List.filter P [m] = [m] := by simp [hP]
      rw [hsing, List.getLast?_concat] at h
      cases h
      refine ⟨hP, by omega, ?_⟩
      intro q hq _
      omega
    · rw [Bool.not_eq_true] at hP
      have hsing : List.filter P [m] = [] := by simp [hP]
      rw [hsing, List.append_nil] at h
      obtain ⟨h1, h2, h3⟩ := ih r h
      refine ⟨h1, by omega, ?_⟩
      intro q hq hPq
      rcases Nat.lt_succ_iff_lt_or_eq.mp hq with h4 | rfl
      · exact h3 q h4 hPq
      · rw [hPq] at hP
        cases hP

/-- An empty filtered range means no position is accepted below the bound. -/
theorem rangeFilterLast_none (P : Nat → Bool) :
    ∀ (m : Nat), ((List.range m).filter P).getLast? = none → ∀ q, q < m → P q = false := by
  intro m
  induction m with
  | zero => intro h q hq; omega
  | succ m ih =>
    intro h q hq
    rw [List.range_succ, List.filter_append, List.getLast?_eq_none_iff,
      List.append_eq_nil] at h
    obtain ⟨h1, h2⟩ := h
    rcases Nat.lt_succ_iff_lt_or_eq.mp hq with h3 | rfl
    · exact ih (by rw [List.getLast?_eq_none_iff]; exact h1) q h3
    · by_contra hc
      rw [Bool.not_eq_false] at hc
      have : List.filter P [q] = [q] := by simp [hc]
      rw [this] at h2
      cases h2

/-- Invariant of the marker fold of `find_bibliography_start`: the result
dominates the accumulator, is either the untouched accumulator or some
marker's match start, and bounds every marker match. -/
theorem bibFold_spec (text : List Char) :
    ∀ (kws : List (List Char)) (acc : Int),
      (∀ kw ∈ kws, kwNoBorder kw = true ∧ kw.length ≠ 0) →
      acc ≤ List.foldl (bibFoldStep text) acc kws ∧
      (List.foldl (bibFoldStep text) acc kws = acc ∨
        ∃ kw ∈ kws, ∃ p, kwMatchAt kw text p = true ∧
          List.foldl (bibFoldStep text) acc kws = Int.ofNat p) ∧
      (∀ kw ∈ kws, ∀ q, kwMatchAt kw text q = true →
        Int.ofNat q ≤ List.foldl (bibFoldStep text) acc kws) := by
  intro kws
  induction kws with
  | nil =>
    intro acc _
    exact ⟨le_refl _, Or.inl rfl, by simp⟩
  | cons kw kws ih =>
    intro acc hkws
    have hkw := hkws kw (List.mem_cons_self _ _)
    have hrest : ∀ k ∈ kws, kwNoBorder k = true ∧ k.length ≠ 0 :=
      fun k hk => hkws k (List.mem_cons_of_mem _ hk)
    obtain ⟨ihge, ihcases, ihub⟩ := ih (bibFoldStep text acc kw) hrest
    simp only [List.foldl_cons]
    have hstep_cases : bibFoldStep text acc kw = acc ∨
        ∃ p, kwMatchAt kw text p = true ∧ bibFoldStep text acc kw = Int.ofNat p := by
      unfold bibFoldStep
      cases hl : (kwStarts kw text).getLast? with
      | none => exact Or.inl rfl
      | some p =>
        have hpm : kwMatchAt kw text p = true :=
          kwScanGo_sound kw text _ _ p (getLast?_mem_self _ _ hl)
        rcases max_choice acc (Int.ofNat p) with hm | hm
        · exact Or.inl hm
        · exact Or.inr ⟨p, hpm, hm⟩
    have hstep_ub : ∀ q, kwMatchAt kw text q = true →
        Int.ofNat q ≤ bibFoldStep text acc kw := by
      intro q hq
      have hmem : q ∈ kwStarts kw text :=
        kwScanGo_complete kw text hkw.1 hkw.2 (text.length + 2) 0 (by omega) q
          (Nat.zero_le q) hq
      unfold bibFoldStep
      cases hl : (kwStarts kw text).getLast? with
      | none =>
        rw [List.getLast?_eq_none_iff] at hl
        rw [kwStarts] at hmem
        rw [kwStarts] at hl
        rw [hl] at hmem
        simp at hmem
      | some r =>
        have hqr := kwScanGo_last_ge kw text (text.length + 2) 0 r hl q hmem
        exact le_trans (Int.ofNat_le.mpr hqr) (le_max_right _ _)
    refine ⟨le_trans (bibFoldStep_ge text acc kw) ihge, ?_, ?_⟩
    · rcases ihcases with hcase | ⟨k, hk, p, hp, heq⟩
      · rcases hstep_cases with h2 | ⟨p, hp, h2⟩
        · exact Or.inl (by rw [hcase, h2])
        · exact Or.inr ⟨kw, List.mem_cons_self _ _, p, hp, by rw [hcase, h2]⟩
      · exact Or.inr ⟨k, List.mem_cons_of_mem _ hk, p, hp, heq⟩
    · intro k hk q hq
      rcases List.mem_cons.mp hk with rfl | hk2
      · exact le_trans (hstep_ub q hq) ihge
      · exact ihub k hk2 q hq

/-- Claim C3, counterexample: on `"x References y"` the single keyword
match spans offsets [2, 12); `find_bibliography_start` returns the match's
*start* offset 2, not the end offset 12 the claim describes. -/
theorem C3_counterexample :
    find_bibliography_start ("x References y".data) = 2 ∧
    2 + ("References".data).length = 12 ∧ (2 : Nat) ≠ 12 :=
  And.intro (by decide) (And.intro (by decide) (by decide))

/-- Claim C3 as amended: `find_bibliography_start` searches
case-insensitively for the five keywords, takes the last match across all
keywords, and returns that match's *start* offset (not its end offset) as
the boundary, or `len(text)` when no keyword occurs — stated as equality
with the specification-level `bibBoundarySpec`. -/
theorem C3_amended (text : List Char) :
    find_bibliography_start text = bibBoundarySpec text := by
  have hmk : ∀ kw ∈ bibMarkers, kwNoBorder kw = true ∧ kw.length ≠ 0 := by decide
  obtain ⟨hge, hcases, hub⟩ := bibFold_spec text bibMarkers (-1) hmk
  unfold find_bibliography_start bibBoundarySpec
  dsimp only
  cases hlast : ((List.range (text.length + 1)).filter
      (fun p => bibMarkers.any (fun kw => kwMatchAt kw text p))).getLast? with
  | none =>
    have hnone := rangeFilterLast_none _ _ hlast
    have hfold : List.foldl (bibFoldStep text) (-1) bibMarkers = -1 := by
      rcases hcases with h | ⟨kw, hkw, p, hp, heq⟩
      · exact h
      · exfalso
        have hb := kwMatchAt_bound kw text p hp
        have hlen := (hmk kw hkw).2
        have hPp := hnone p (by omega)
        have hTrue : bibMarkers.any (fun k => kwMatchAt k text p) = true :=
          List.any_eq_true.mpr ⟨kw, hkw, hp⟩
        rw [hTrue] at hPp
        cases hPp
    rw [if_pos hfold]
  | some m =>
    obtain ⟨hPm, hmlt, hubm⟩ := rangeFilterLast_some _ _ _ hlast
    rw [List.any_eq_true] at hPm
    obtain ⟨kw, hkw, hkwm⟩ := hPm
    have hfoldge : Int.ofNat m ≤ List.foldl (bibFoldStep text) (-1) bibMarkers :=
      hub kw hkw m hkwm
    rw [Int.ofNat_eq_natCast] at hfoldge
    rcases hcases with h | ⟨kw2, hkw2, p, hp, heq⟩
    · exfalso
      rw [h] at hfoldge
      omega
    · have hple : p ≤ m := by
        apply hubm p
        · have hb := kwMatchAt_bound kw2 text p hp
          have hlen := (hmk kw2 hkw2).2
          omega
        · exact List.any_eq_true.mpr ⟨kw2, hkw2, hp⟩
      have hmle : m ≤ p := by
        rw [heq, Int.ofNat_eq_natCast] at hfoldge
        exact_mod_cast hfoldge
      have hpm : p = m := by omega
      have hfne : List.foldl (bibFoldStep text) (-1) bibMarkers ≠ -1 := by
        intro hc
        rw [hc] at hfoldge
        omega
      rw [if_neg hfne, heq, hpm]
      rfl
